import Mathlib

/-
Verification of the simplerandomrooms server core: the in-memory connection
registry (ConnectionManager in app/routers/websocket.py), the websocket
message loop, and the room store routes (app/routers/rooms.py,
app/models/database.py).  Python dicts are embedded as association lists
over String keys with first-match lookup, in-place update and first-match
deletion, which coincides with dict semantics on the duplicate-free states
the invariants describe.  datetime values are embedded as Nat, websocket
handles as a Bool that is true when send_text succeeds.
-/

namespace SimpleRandomRooms

/-- Association-list lookup, first match: embeds a Python dict read. -/
def dlookup {α : Type} : List (String × α) → String → Option α
  | [], _ => none
  | e :: t, k => if e.1 = k then some e.2 else dlookup t k

/-- Association-list write: update in place when the key exists, else append.
Embeds Python dict item assignment. -/
def dinsert {α : Type} : List (String × α) → String → α → List (String × α)
  | [], k, v => [(k, v)]
  | e :: t, k, v => if e.1 = k then (k, v) :: t else e :: dinsert t k v

/-- Association-list delete of the first entry with the key.  Embeds Python
del d[k]; on the duplicate-free in-domain states the operations below are
used on, this agrees with dict deletion. -/
def derase {α : Type} : List (String × α) → String → List (String × α)
  | [], _ => []
  | e :: t, k => if e.1 = k then t else e :: derase t k

/-- Key list of an association list (Python dict keys, in insertion order). -/
def dkeys {α : Type} (l : List (String × α)) : List String := l.map (fun e => e.1)

/-- Entries whose key satisfies p, in order. -/
def filterKey {α : Type} (p : String → Bool) (l : List (String × α)) : List (String × α) :=
  l.filter (fun e => p e.1)

/-- ConnectionManager state (websocket.py lines 15-24): active_rooms maps a
room id to its members' connection handles, user_names to their display
names, last_activity to their last-activity timestamps. -/
structure Manager where
  active_rooms : List (String × List (String × Bool))
  user_names : List (String × List (String × String))
  last_activity : List (String × List (String × Nat))
  deriving DecidableEq

/-- Outbound events produced by the manager: each constructor is one of the
JSON message shapes built in websocket.py (timestamps omitted). -/
inductive Event where
  | join (rid cid uname : String) (users : List (String × String))
  | leave (rid cid uname : String) (users : List (String × String))
  | nameChange (rid cid oldName newName : String) (users : List (String × String))
  | randomAction (rid cid uname action result : String)
  | parameterUpdate (rid cid : String) (mn mx : Int) (repl : Bool)
  | heartbeatAck (cid : String)
  deriving DecidableEq

/-- ConnectionManager.get_users (lines 79-86). -/
def get_users (m : Manager) (rid : String) : List (String × String) :=
  (dlookup m.user_names rid).getD []

/-- ConnectionManager.disconnect (lines 48-77).  Removes the client's
connection and activity entry; when the room becomes empty the whole room
entry is removed from all three maps, otherwise the display name is removed
and a leave broadcast task is created (returned here as the event list, with
the member snapshot taken after the name removal, as in the source). -/
def disconnect (m : Manager) (rid cid : String) : Manager × List Event :=
  match dlookup m.active_rooms rid with
  | none => (m, [])
  | some mem =>
    match dlookup mem cid with
    | none => (m, [])
    | some _ =>
      let mem' := derase mem cid
      let la_r := (dlookup m.last_activity rid).getD []
      let la' :=
        if (dlookup la_r cid).isSome then
          dinsert m.last_activity rid (derase la_r cid)
        else m.last_activity
      if mem' = [] then
        (⟨derase m.active_rooms rid, derase m.user_names rid, derase la' rid⟩, [])
      else
        let names_r := (dlookup m.user_names rid).getD []
        let uname := (dlookup names_r cid).getD "Unknown user"
        let m' : Manager := ⟨dinsert m.active_rooms rid mem', dinsert m.user_names rid (derase names_r cid), la'⟩
        (m', [Event.leave rid cid uname (get_users m' rid)])

/-- ConnectionManager.broadcast_to_room (lines 101-113).  Sends the message
to every member independently, collecting the clients whose send raised, then
disconnects each of them.  Returns the new state, the recipients that were
delivered to, and the deferred leave events of the cleanup disconnects. -/
def broadcast_to_room (m : Manager) (rid : String) (ev : Event) : Manager × List String × List Event :=
  match dlookup m.active_rooms rid with
  | none => (m, [], [])
  | some mem =>
    let delivered := (mem.filter (fun e => e.2)).map (fun e => e.1)
    let failed := (mem.filter (fun e => !e.2)).map (fun e => e.1)
    let cleanup := failed.foldl
      (fun acc c =>
        let d := disconnect acc.1 rid c
        (d.1, acc.2 ++ d.2))
      (m, ([] : List Event))
    (cleanup.1, delivered, cleanup.2)

/-- ConnectionManager.broadcast_parameter_update (lines 163-204).  Sends to
each member individually, counting successes and failures, and returns
whether any send succeeded.  It does not disconnect failing recipients. -/
def broadcast_parameter_update (m : Manager) (rid cid : String) (mn mx : Int) (repl : Bool) : Manager × Bool :=
  match dlookup m.active_rooms rid with
  | none => (m, false)
  | some mem =>
    let ok := (mem.filter (fun e => e.2)).length
    (m, decide (0 < ok))

/-- State mutation of ConnectionManager.connect (lines 26-43): initialize
the room maps when absent, store the connection, assign the default name
"User n" where n is the member count after insertion, initialize last
activity. -/
def register_state (m : Manager) (rid cid : String) (conn : Bool) (now : Nat) : Manager :=
  let mem1 := dinsert ((dlookup m.active_rooms rid).getD []) cid conn
  let dname := "User " ++ toString mem1.length
  ⟨dinsert m.active_rooms rid mem1,
   dinsert m.user_names rid (dinsert ((dlookup m.user_names rid).getD []) cid dname),
   dinsert m.last_activity rid (dinsert ((dlookup m.last_activity rid).getD []) cid now)⟩

/-- ConnectionManager.broadcast_join (lines 88-99): when the room is active,
the join event carrying the member's display name and the member snapshot is
delivered to the room. -/
def broadcast_join (m : Manager) (rid cid : String) : Manager × List String × List Event :=
  match dlookup m.active_rooms rid with
  | none => (m, [], [])
  | some _ =>
    let uname := (dlookup ((dlookup m.user_names rid).getD []) cid).getD "Unknown user"
    let ev := Event.join rid cid uname (get_users m rid)
    let b := broadcast_to_room m rid ev
    (b.1, b.2.1, ev :: b.2.2)

/-- ConnectionManager.connect (lines 26-46): the state mutation followed by
the awaited join broadcast (which prunes members whose send fails). -/
def connect (m : Manager) (rid cid : String) (conn : Bool) (now : Nat) : Manager × List String × List Event :=
  broadcast_join (register_state m rid cid conn now) rid cid

/-- ConnectionManager.update_username (lines 144-161): silently a no-op when
the room or client is unknown, else the stored name is replaced and a
name_change broadcast is delivered. -/
def update_username (m : Manager) (rid cid uname : String) : Manager × List String × List Event :=
  match dlookup m.user_names rid with
  | none => (m, [], [])
  | some names_r =>
    match dlookup names_r cid with
    | none => (m, [], [])
    | some oldName =>
      let m1 : Manager := ⟨m.active_rooms, dinsert m.user_names rid (dinsert names_r cid uname), m.last_activity⟩
      let ev := Event.nameChange rid cid oldName uname (get_users m1 rid)
      let b := broadcast_to_room m1 rid ev
      (b.1, b.2.1, ev :: b.2.2)

/-- ConnectionManager.update_activity (lines 206-209): guarded only on the
room being present in last_activity; the client entry is written
unconditionally. -/
def update_activity (m : Manager) (rid cid : String) (now : Nat) : Manager :=
  match dlookup m.last_activity rid with
  | none => m
  | some la_r => ⟨m.active_rooms, m.user_names, dinsert m.last_activity rid (dinsert la_r cid now)⟩

/-- One client check of cleanup_inactive_connections (lines 222-233): if the
client has a last-activity entry older than the timeout it is disconnected
and counted. -/
def sweepStep (now timeout : Nat) (rid : String) (acc : Manager × Nat) (cid : String) : Manager × Nat :=
  match dlookup acc.1.last_activity rid with
  | none => acc
  | some la_r =>
    match dlookup la_r cid with
    | none => acc
    | some t =>
      if now - t > timeout then ((disconnect acc.1 rid cid).1, acc.2 + 1) else acc

/-- One room pass of cleanup_inactive_connections (lines 216-233): skip empty
rooms, else iterate over a snapshot of the member keys. -/
def sweepRoom (now timeout : Nat) (acc : Manager × Nat) (rid : String) : Manager × Nat :=
  match dlookup acc.1.active_rooms rid with
  | none => acc
  | some mem =>
    if mem.isEmpty then acc
    else (dkeys mem).foldl (sweepStep now timeout rid) acc

/-- ConnectionManager.cleanup_inactive_connections (lines 211-238), with now
and the timeout as parameters (the source fixes timeout to 600 seconds and
now to datetime.utcnow()).  Returns the count of removed connections. -/
def cleanup_inactive_connections (m : Manager) (now timeout : Nat) : Manager × Nat :=
  (dkeys m.active_rooms).foldl (sweepRoom now timeout) (m, 0)

/-- A persisted log row (Log in app/models/database.py). -/
structure LogEntry where
  room_id : String
  user_name : String
  action : String
  result : String
  deriving DecidableEq

/-- ConnectionManager.broadcast_random_action (lines 115-142): when the room
is active, the action is logged to the database under the actor's display
name and broadcast to the room. -/
def broadcast_random_action (m : Manager) (rid cid action result : String) : Manager × List LogEntry × List Event :=
  match dlookup m.active_rooms rid with
  | none => (m, [], [])
  | some _ =>
    let uname := (dlookup ((dlookup m.user_names rid).getD []) cid).getD "Unknown user"
    let ev := Event.randomAction rid cid uname action result
    let b := broadcast_to_room m rid ev
    (b.1, [⟨rid, uname, action, result⟩], ev :: b.2.2)

/-- A rooms-table row (Room in app/models/database.py lines 35-46) with its
column defaults min_value 1, max_value 100, with_replacement true. -/
structure RoomRec where
  id : String
  created_at : Nat
  is_coin_flip : Bool
  min_value : Int
  max_value : Int
  with_replacement : Bool
  deriving DecidableEq

/-- Modelled from the Python standard library: random.randint lo hi returns
an integer r with lo ≤ r ≤ hi and raises ValueError when lo > hi.  The seed
argument stands for the generator state; none stands for the raised
ValueError. -/
def randint (seed : Nat) (lo hi : Int) : Option Int :=
  if lo ≤ hi then some (lo + (seed : Int) % (hi - lo + 1)) else none

/-- Outcome of the update-params route: success, 404, or the 400 validation
rejection. -/
inductive UpdResult where
  | ok (r : RoomRec)
  | errNotFound
  | errValidation
  deriving DecidableEq

/-- update_params route (rooms.py lines 65-94): 404 when the room is
unknown, 400 when min_value >= max_value (leaving the store untouched), else
the three parameters are persisted. -/
def update_params (store : List (String × RoomRec)) (rid : String) (mn mx : Int) (repl : Bool) :
    List (String × RoomRec) × UpdResult :=
  match dlookup store rid with
  | none => (store, UpdResult.errNotFound)
  | some room =>
    if mx ≤ mn then (store, UpdResult.errValidation)
    else
      let room' := RoomRec.mk room.id room.created_at room.is_coin_flip mn mx repl
      (dinsert store rid room', UpdResult.ok room')

/-- Row built by the create-room route (rooms.py lines 27-30): only id and
is_coin_flip are supplied; created_at, min_value, max_value and
with_replacement take their column defaults. -/
def mkRoom (rid : String) (createdAt : Nat) (coin : Bool) : RoomRec :=
  RoomRec.mk rid createdAt coin 1 100 true

/-- create_room route (rooms.py lines 18-38): inserts the new row and
returns the redirect target. -/
def create_room (store : List (String × RoomRec)) (rid : String) (createdAt : Nat) (coin : Bool) :
    List (String × RoomRec) × String :=
  (dinsert store rid (mkRoom rid createdAt coin), "/room/" ++ rid)

/-- Optional overrides carried by a number_draw message. -/
structure DrawMsg where
  min_value : Option Int
  max_value : Option Int
  with_replacement : Option Bool
  deriving DecidableEq

/-- Inbound websocket message kinds (websocket.py lines 281-335); other
covers any unrecognized type string. -/
inductive InMsg where
  | heartbeat
  | disconnectMsg
  | nameChange (uname : String)
  | coinFlip
  | numberDraw (dm : DrawMsg)
  | other (kind : String)
  deriving DecidableEq

/-- What the receive loop does after one message: continue looping, leave the
loop (explicit disconnect), or propagate an exception. -/
inductive Ctl where
  | next
  | stop
  | err
  deriving DecidableEq

/-- Result of one loop iteration: manager state, the (possibly re-persisted)
room row, appended log rows, produced events, and the control outcome. -/
structure StepOut where
  mgr : Manager
  room : RoomRec
  logs : List LogEntry
  events : List Event
  ctl : Ctl
  deriving DecidableEq

/-- One iteration of the websocket receive loop body (websocket.py lines
272-335): the activity timestamp is refreshed before dispatch; number_draw
resolves parameters from the message with room defaults, persists them first
when they differ (without validation), then draws - random.randint raises
when min > max, after the commit - and finally broadcasts the action and,
when parameters changed, the parameter update. -/
def handle_message (m0 : Manager) (room : RoomRec) (rid cid : String) (msg : InMsg) (now : Nat) (seed : Nat) : StepOut :=
  let m := update_activity m0 rid cid now
  match msg with
  | .heartbeat => ⟨m, room, [], [Event.heartbeatAck cid], Ctl.next⟩
  | .disconnectMsg => ⟨m, room, [], [], Ctl.stop⟩
  | .nameChange u =>
    let r := update_username m rid cid u
    ⟨r.1, room, [], r.2.2, Ctl.next⟩
  | .coinFlip =>
    let result := if seed % 2 = 0 then "Heads" else "Tails"
    let r := broadcast_random_action m rid cid "Coin Flip" result
    ⟨r.1, room, r.2.1, r.2.2, Ctl.next⟩
  | .numberDraw dm =>
    let mn := dm.min_value.getD room.min_value
    let mx := dm.max_value.getD room.max_value
    let repl := dm.with_replacement.getD room.with_replacement
    let changed := decide (mn ≠ room.min_value) || decide (mx ≠ room.max_value) || decide (repl ≠ room.with_replacement)
    let room' := if changed then RoomRec.mk room.id room.created_at room.is_coin_flip mn mx repl else room
    match randint seed mn mx with
    | none => ⟨m, room', [], [], Ctl.err⟩
    | some r =>
      let b := broadcast_random_action m rid cid "Number Draw" (toString r)
      let pu := if changed then (broadcast_parameter_update b.1 rid cid mn mx repl).1 else b.1
      let evs := if changed then b.2.2 ++ [Event.parameterUpdate rid cid mn mx repl] else b.2.2
      ⟨pu, room', b.2.1, evs, Ctl.next⟩
  | .other _ => ⟨m, room, [], [], Ctl.next⟩

/-- How an Active session ended (websocket.py lines 286-289 and 336-344):
an explicit disconnect message breaks out of the loop, a transport-level
WebSocketDisconnect or any other exception is caught. -/
inductive CloseCause where
  | clientBreak
  | wsDisconnect
  | handlerError
  deriving DecidableEq

/-- What the endpoint does when the session leaves the loop: the two except
handlers call manager.disconnect; the explicit-disconnect break path falls
off the end of the handler without touching the manager. -/
def close_session (cause : CloseCause) (m : Manager) (rid cid : String) : Manager × List Event :=
  match cause with
  | .clientBreak => (m, [])
  | .wsDisconnect => disconnect m rid cid
  | .handlerError => disconnect m rid cid

/-- The five registry operations of the spec, each embodied by the manager
method named in its definition. -/
inductive RegistryOp where
  | reg (rid cid : String) (conn : Bool) (now : Nat)
  | dereg (rid cid : String)
  | ren (rid cid uname : String)
  | tch (rid cid : String) (now : Nat)
  | swp (now timeout : Nat)
  deriving DecidableEq

/-- State effect of one registry operation. -/
def applyOp (op : RegistryOp) (m : Manager) : Manager :=
  match op with
  | .reg rid cid conn now => (connect m rid cid conn now).1
  | .dereg rid cid => (disconnect m rid cid).1
  | .ren rid cid u => (update_username m rid cid u).1
  | .tch rid cid now => update_activity m rid cid now
  | .swp now timeout => (cleanup_inactive_connections m now timeout).1

/-- Connection handle of a registered member, none when not registered. -/
def memberConn (m : Manager) (rid cid : String) : Option Bool :=
  (dlookup m.active_rooms rid).bind (fun mem => dlookup mem cid)

/-- Display name of a registered member. -/
def memberName (m : Manager) (rid cid : String) : Option String :=
  (dlookup m.user_names rid).bind (fun nr => dlookup nr cid)

/-- Last-activity timestamp of a client. -/
def memberLast (m : Manager) (rid cid : String) : Option Nat :=
  (dlookup m.last_activity rid).bind (fun lr => dlookup lr cid)

/-- Inactivity test of the sweep for a client of the manager: true when the
stored last activity is strictly older than the timeout. -/
def timedOut (m : Manager) (now timeout : Nat) (rid cid : String) : Bool :=
  match memberLast m rid cid with
  | some t => decide (now - t > timeout)
  | none => false

/-- Inactivity test against one room's last-activity map. -/
def tOut (la0 : List (String × Nat)) (now timeout : Nat) (c : String) : Bool :=
  match dlookup la0 c with
  | some t => decide (now - t > timeout)
  | none => false

/-- Members the sweep removes, counted room by room from the pre-state. -/
def countRemoved (m : Manager) (now timeout : Nat) : Nat :=
  (m.active_rooms.map (fun p => p.2.countP (fun e => timedOut m now timeout p.1 e.1))).sum

/-- Room membership invariant of the spec: no registry entry maps a room to
an empty member map. -/
abbrev NoEmptyRooms (m : Manager) : Prop := ∀ p ∈ m.active_rooms, p.2 ≠ []

/-- Well-formedness of a manager state, as established by connect and
preserved by the other operations: duplicate-free keys, non-empty rooms,
user_names keyed exactly like the member map, and a last-activity entry for
every member (last_activity may hold extra stray client entries, which
update_activity can create). -/
abbrev SweepWf (m : Manager) : Prop :=
  (dkeys m.active_rooms).Nodup ∧ (dkeys m.user_names).Nodup ∧ (dkeys m.last_activity).Nodup ∧
  (∀ p ∈ m.active_rooms, p.2 ≠ [] ∧ (dkeys p.2).Nodup) ∧
  (∀ p ∈ m.active_rooms, (dlookup m.user_names p.1).map dkeys = some (dkeys p.2)) ∧
  (∀ p ∈ m.active_rooms, (dlookup m.last_activity p.1).isSome = true ∧
    (dkeys ((dlookup m.last_activity p.1).getD [])).Nodup ∧
    ∀ c ∈ dkeys p.2, c ∈ dkeys ((dlookup m.last_activity p.1).getD []))

/-- Survivor predicate of the sweep over one room: a client is still present
after the sweep has processed the clients in ds unless it was processed and
its last activity was strictly too old. -/
def sdPred (la0 : List (String × Nat)) (now timeout : Nat) (ds : List String) (x : String) : Bool :=
  !(decide (x ∈ ds) && tOut la0 now timeout x)

/-- The three registry entries of one room, observed together. -/
def roomTriple (m : Manager) (r : String) :
    Option (List (String × Bool)) × Option (List (String × String)) × Option (List (String × Nat)) :=
  (dlookup m.active_rooms r, dlookup m.user_names r, dlookup m.last_activity r)

/-- Duplicate-free room keys in all three registry maps. -/
abbrev NodupOuter (m : Manager) : Prop :=
  (dkeys m.active_rooms).Nodup ∧ (dkeys m.user_names).Nodup ∧ (dkeys m.last_activity).Nodup

/-- Number of members of one room the sweep removes. -/
def cntRoom (m : Manager) (now timeout : Nat) (r : String) : Nat :=
  match dlookup m.active_rooms r with
  | none => 0
  | some mem => (dkeys mem).countP (tOut ((dlookup m.last_activity r).getD []) now timeout)

/-- Post-state of one room after the sweep: the room's three maps filtered
to the surviving members, or gone entirely when no member survives. -/
def sweepRoomSpec (m0 : Manager) (now timeout : Nat) (r : String) (mf : Manager) : Prop :=
  ∀ mem0, dlookup m0.active_rooms r = some mem0 →
    (filterKey (sdPred ((dlookup m0.last_activity r).getD []) now timeout (dkeys mem0)) mem0 = [] →
      roomTriple mf r = (none, none, none)) ∧
    (filterKey (sdPred ((dlookup m0.last_activity r).getD []) now timeout (dkeys mem0)) mem0 ≠ [] →
      roomTriple mf r =
        (some (filterKey (sdPred ((dlookup m0.last_activity r).getD []) now timeout (dkeys mem0)) mem0),
         some (filterKey (sdPred ((dlookup m0.last_activity r).getD []) now timeout (dkeys mem0))
           ((dlookup m0.user_names r).getD [])),
         some (filterKey (sdPred ((dlookup m0.last_activity r).getD []) now timeout (dkeys mem0))
           ((dlookup m0.last_activity r).getD []))))

/-- Concrete registry state: room "r" with the single healthy client "a". -/
def w1 : Manager :=
  ⟨[("r", [("a", true)])], [("r", [("a", "User 1")])], [("r", [("a", 0)])]⟩

/-- Concrete registry state: room "r" with fresh client "a" and stale client
"b" (last activity 100 and 0). -/
def w2 : Manager :=
  ⟨[("r", [("a", true), ("b", true)])],
   [("r", [("a", "User 1"), ("b", "User 2")])],
   [("r", [("a", 100), ("b", 0)])]⟩

/-- Concrete registry state: room "r" with failing client "f" and healthy
client "h". -/
def w3 : Manager :=
  ⟨[("r", [("f", false), ("h", true)])],
   [("r", [("f", "User 1"), ("h", "User 2")])],
   [("r", [("f", 0), ("h", 0)])]⟩

/-- Concrete room store holding one room "r" with the default parameters. -/
def wStore : List (String × RoomRec) := [("r", mkRoom "r" 0 false)]

section AssocLemmas

variable {α : Type}

theorem dlookup_dinsert_self (l : List (String × α)) (k : String) (v : α) :
    dlookup (dinsert l k v) k = some v := by
  induction l with
  | nil => simp [dinsert, dlookup]
  | cons e t ih =>
    by_cases h : e.1 = k
    · simp [dinsert, dlookup, h]
    · simp [dinsert, dlookup, h, ih]

theorem dlookup_dinsert_ne (l : List (String × α)) (k k' : String) (v : α) (h : k' ≠ k) :
    dlookup (dinsert l k v) k' = dlookup l k' := by
  have h2 : k ≠ k' := Ne.symm h
  induction l with
  | nil => simp [dinsert, dlookup, h2]
  | cons e t ih =>
    by_cases he : e.1 = k
    · have he2 : e.1 ≠ k' := by rw [he]; exact h2
      simp [dinsert, he, dlookup, h2, he2]
    · simp only [dinsert, he, if_false]
      by_cases he' : e.1 = k'
      · simp [dlookup, he']
      · simp [dlookup, he', ih]

theorem dlookup_derase_ne (l : List (String × α)) (k k' : String) (h : k' ≠ k) :
    dlookup (derase l k) k' = dlookup l k' := by
  have h2 : k ≠ k' := Ne.symm h
  induction l with
  | nil => simp [derase]
  | cons e t ih =>
    by_cases he : e.1 = k
    · have he2 : e.1 ≠ k' := by rw [he]; exact h2
      simp [derase, he, dlookup, he2, h2]
    · simp only [derase, he, if_false]
      by_cases he' : e.1 = k'
      · simp [dlookup, he']
      · simp [dlookup, he', ih]

theorem dlookup_eq_none_iff (l : List (String × α)) (k : String) :
    dlookup l k = none ↔ k ∉ dkeys l := by
  induction l with
  | nil => simp [dlookup, dkeys]
  | cons e t ih =>
    by_cases he : e.1 = k
    · subst he
      simp [dlookup, dkeys]
    · have he2 : k ≠ e.1 := fun hh => he hh.symm
      simp [dlookup, dkeys, he, he2, ih]

theorem mem_dkeys_exists (l : List (String × α)) (k : String) (h : k ∈ dkeys l) :
    ∃ v, dlookup l k = some v := by
  rcases ho : dlookup l k with _ | v
  · exact absurd ((dlookup_eq_none_iff l k).mp ho) (by simp [h])
  · exact ⟨v, rfl⟩

theorem dlookup_some_mem (l : List (String × α)) (k : String) (v : α)
    (h : dlookup l k = some v) : (k, v) ∈ l := by
  induction l with
  | nil => simp [dlookup] at h
  | cons e t ih =>
    obtain ⟨e1, e2⟩ := e
    by_cases he : e1 = k
    · subst he
      simp [dlookup] at h
      subst h
      exact List.mem_cons_self _ _
    · simp [dlookup, he] at h
      exact List.mem_cons_of_mem _ (ih h)

theorem dlookup_entry_of_nodup (l : List (String × α)) (p : String × α)
    (hnd : (dkeys l).Nodup) (hp : p ∈ l) : dlookup l p.1 = some p.2 := by
  induction l with
  | nil => simp at hp
  | cons e t ih =>
    simp only [dkeys, List.map_cons, List.nodup_cons] at hnd
    rcases List.mem_cons.mp hp with hq | hq
    · subst hq
      simp [dlookup]
    · have hne : e.1 ≠ p.1 := by
        intro hh
        apply hnd.1
        rw [hh]
        exact List.mem_map_of_mem (fun q => q.1) hq
      simp only [dlookup, hne, if_false]
      exact ih (by simpa [dkeys] using hnd.2) hq

theorem dinsert_of_lookup_none (l : List (String × α)) (k : String) (v : α)
    (h : dlookup l k = none) : dinsert l k v = l ++ [(k, v)] := by
  induction l with
  | nil => simp [dinsert]
  | cons e t ih =>
    by_cases he : e.1 = k
    · simp [dlookup, he] at h
    · simp only [dlookup, he, if_false] at h
      simp [dinsert, he, ih h]

theorem dinsert_of_lookup_some (l : List (String × α)) (k : String) (v : α)
    (h : dlookup l k = some v) : dinsert l k v = l := by
  induction l with
  | nil => simp [dlookup] at h
  | cons e t ih =>
    obtain ⟨e1, e2⟩ := e
    by_cases he : e1 = k
    · subst he
      simp [dlookup] at h
      subst h
      simp [dinsert]
    · simp [dlookup, he] at h
      simp [dinsert, he, ih h]

theorem dinsert_dinsert (l : List (String × α)) (k : String) (v w : α) :
    dinsert (dinsert l k v) k w = dinsert l k w := by
  induction l with
  | nil => simp [dinsert]
  | cons e t ih =>
    by_cases he : e.1 = k
    · simp [dinsert, he]
    · simp [dinsert, he, ih]

theorem derase_of_lookup_none (l : List (String × α)) (k : String)
    (h : dlookup l k = none) : derase l k = l := by
  induction l with
  | nil => simp [derase]
  | cons e t ih =>
    by_cases he : e.1 = k
    · simp [dlookup, he] at h
    · simp only [dlookup, he, if_false] at h
      simp [derase, he, ih h]

theorem derase_append_last (l : List (String × α)) (k : String) (v : α)
    (h : dlookup l k = none) : derase (l ++ [(k, v)]) k = l := by
  induction l with
  | nil => simp [derase]
  | cons e t ih =>
    by_cases he : e.1 = k
    · simp [dlookup, he] at h
    · simp only [dlookup, he, if_false] at h
      simp [derase, he, ih h]

theorem derase_sublist (l : List (String × α)) (k : String) :
    List.Sublist (derase l k) l := by
  induction l with
  | nil => simp [derase]
  | cons e t ih =>
    by_cases he : e.1 = k
    · simp only [derase]
      rw [if_pos he]
      exact List.Sublist.cons e (List.Sublist.refl t)
    · simp only [derase]
      rw [if_neg he]
      exact List.Sublist.cons₂ e ih

theorem mem_dinsert (l : List (String × α)) (k : String) (v : α) (p : String × α)
    (h : p ∈ dinsert l k v) : p ∈ l ∨ p = (k, v) := by
  induction l with
  | nil =>
    simp [dinsert] at h
    exact Or.inr h
  | cons e t ih =>
    by_cases he : e.1 = k
    · simp only [dinsert] at h
      rw [if_pos he] at h
      rcases List.mem_cons.mp h with hh | hh
      · exact Or.inr hh
      · exact Or.inl (List.mem_cons_of_mem _ hh)
    · simp only [dinsert] at h
      rw [if_neg he] at h
      rcases List.mem_cons.mp h with hh | hh
      · exact Or.inl (by simp [hh])
      · rcases ih hh with hi | hi
        · exact Or.inl (List.mem_cons_of_mem _ hi)
        · exact Or.inr hi

theorem self_mem_dinsert (l : List (String × α)) (k : String) (v : α) :
    (k, v) ∈ dinsert l k v := by
  induction l with
  | nil => simp [dinsert]
  | cons e t ih =>
    by_cases he : e.1 = k
    · simp only [dinsert]
      rw [if_pos he]
      exact List.mem_cons_self _ _
    · simp only [dinsert]
      rw [if_neg he]
      exact List.mem_cons_of_mem _ ih

theorem length_dinsert_of_none (l : List (String × α)) (k : String) (v : α)
    (h : dlookup l k = none) : (dinsert l k v).length = l.length + 1 := by
  rw [dinsert_of_lookup_none l k v h]
  simp

theorem dinsert_ne_nil (l : List (String × α)) (k : String) (v : α) :
    dinsert l k v ≠ [] := by
  cases l with
  | nil => simp [dinsert]
  | cons e t =>
    by_cases he : e.1 = k <;> simp [dinsert, he]

theorem dkeys_dinsert_of_mem (l : List (String × α)) (k : String) (v : α)
    (h : k ∈ dkeys l) : dkeys (dinsert l k v) = dkeys l := by
  induction l with
  | nil => simp [dkeys] at h
  | cons e t ih =>
    by_cases he : e.1 = k
    · simp only [dinsert]
      rw [if_pos he]
      simp [dkeys, he]
    · simp only [dinsert]
      rw [if_neg he]
      simp only [dkeys, List.map_cons] at h ⊢
      have h2 : k ∈ List.map (fun q => q.1) t := by
        rcases List.mem_cons.mp h with hh | hh
        · exact absurd hh.symm he
        · exact hh
      have h3 := ih (by simpa [dkeys] using h2)
      simp only [dkeys] at h3
      rw [h3]

theorem nodup_dkeys_derase (l : List (String × α)) (k : String)
    (h : (dkeys l).Nodup) : (dkeys (derase l k)).Nodup := by
  simp only [dkeys] at h ⊢
  exact ((derase_sublist l k).map (fun e => e.1)).nodup h

theorem dlookup_filterKey (p : String → Bool) (l : List (String × α)) (k : String) :
    dlookup (filterKey p l) k = if p k then dlookup l k else none := by
  induction l with
  | nil => by_cases hk : p k <;> simp [filterKey, dlookup, hk]
  | cons e t ih =>
    by_cases hp : p e.1
    · have hc : filterKey p (e :: t) = e :: filterKey p t := by
        simp [filterKey, List.filter_cons, hp]
      rw [hc]
      by_cases he : e.1 = k
      · subst he
        simp [dlookup, hp]
      · simp only [dlookup, he, if_false]
        exact ih
    · have hc : filterKey p (e :: t) = filterKey p t := by
        simp [filterKey, List.filter_cons, hp]
      rw [hc, ih]
      by_cases hk : p k
      · by_cases he : e.1 = k
        · subst he
          simp_all
        · simp [dlookup, he, hk]
      · simp [hk]

theorem filterKey_congr (p q : String → Bool) :
    ∀ (l : List (String × α)), (∀ e ∈ l, p e.1 = q e.1) → filterKey p l = filterKey q l
  | [], _ => by simp [filterKey]
  | e :: t, h => by
    have he := h e (List.mem_cons_self e t)
    have ht := filterKey_congr p q t (fun e' he' => h e' (List.mem_cons_of_mem _ he'))
    simp only [filterKey, List.filter_cons] at ht ⊢
    rw [he, ht]

theorem filterKey_true (l : List (String × α)) : filterKey (fun _ => true) l = l := by
  induction l with
  | nil => simp [filterKey]
  | cons e t ih =>
    simp only [filterKey, List.filter_cons] at ih ⊢
    simp [ih]

theorem filterKey_filterKey (p q : String → Bool) (l : List (String × α)) :
    filterKey p (filterKey q l) = filterKey (fun x => q x && p x) l := by
  induction l with
  | nil => simp [filterKey]
  | cons e t ih =>
    simp only [filterKey, List.filter_cons] at ih ⊢
    by_cases hq : q e.1
    · by_cases hp : p e.1
      · simp [hq, hp, List.filter_cons, ih]
      · simp [hq, hp, List.filter_cons, ih]
    · simp [hq, ih]

theorem dkeys_filterKey (p : String → Bool) (l : List (String × α)) :
    dkeys (filterKey p l) = (dkeys l).filter p := by
  induction l with
  | nil => simp [filterKey, dkeys]
  | cons e t ih =>
    by_cases hp : p e.1 <;>
      simp only [filterKey, dkeys, List.filter_cons, List.map_cons] at ih ⊢ <;>
      simp [hp, ih]

theorem filterKey_eq_nil_iff (p : String → Bool) (l : List (String × α)) :
    filterKey p l = [] ↔ ∀ e ∈ l, p e.1 = false := by
  induction l with
  | nil => simp [filterKey]
  | cons e t ih =>
    simp only [filterKey, List.filter_cons] at ih ⊢
    by_cases hp : p e.1
    · simp [hp, ih, List.forall_mem_cons]
    · simp [hp, ih, List.forall_mem_cons]

theorem derase_eq_filterKey :
    ∀ (l : List (String × α)) (k : String), (dkeys l).Nodup →
      derase l k = filterKey (fun x => decide (x ≠ k)) l
  | [], k, _ => by simp [derase, filterKey]
  | e :: t, k, hnd => by
    have hnd2 : (dkeys t).Nodup := by
      simp only [dkeys, List.map_cons, List.nodup_cons] at hnd
      simpa [dkeys] using hnd.2
    have hmem : e.1 ∉ dkeys t := by
      simp only [dkeys, List.map_cons, List.nodup_cons] at hnd
      simpa [dkeys] using hnd.1
    by_cases he : e.1 = k
    · subst he
      have ht : filterKey (fun x => decide (x ≠ e.1)) t = t := by
        apply List.filter_eq_self.mpr
        intro a ha
        simp only [decide_eq_true_eq]
        intro hh
        apply hmem
        rw [← hh]
        simp only [dkeys]
        exact List.mem_map_of_mem (fun q => q.1) ha
      simp only [derase]
      simp only [filterKey, List.filter_cons] at ht ⊢
      have ht2 : List.filter (fun q => !decide (q.1 = e.1)) t = t := by
        simpa [decide_not] using ht
      simp [ht2]
    · have ht := derase_eq_filterKey t k hnd2
      simp only [derase]
      rw [if_neg he]
      simp only [filterKey, List.filter_cons] at ht ⊢
      simp [he, ht]

end AssocLemmas

theorem dlookup_derase_self {α : Type} (l : List (String × α)) (k : String)
    (hnd : (dkeys l).Nodup) : dlookup (derase l k) k = none := by
  rw [derase_eq_filterKey l k hnd, dlookup_filterKey]
  simp

section DisconnectLemmas

theorem disconnect_no_room (m : Manager) (rid cid : String)
    (h : dlookup m.active_rooms rid = none) : disconnect m rid cid = (m, []) := by
  simp [disconnect, h]

theorem disconnect_no_client (m : Manager) (rid cid : String) (mem : List (String × Bool))
    (h : dlookup m.active_rooms rid = some mem) (hc : dlookup mem cid = none) :
    disconnect m rid cid = (m, []) := by
  simp [disconnect, h, hc]

theorem disconnect_delete (m : Manager) (rid cid : String) (mem : List (String × Bool)) (w : Bool)
    (h : dlookup m.active_rooms rid = some mem) (hc : dlookup mem cid = some w)
    (hmem : derase mem cid = []) :
    disconnect m rid cid =
      (⟨derase m.active_rooms rid, derase m.user_names rid,
        derase (if (dlookup ((dlookup m.last_activity rid).getD []) cid).isSome
                then dinsert m.last_activity rid (derase ((dlookup m.last_activity rid).getD []) cid)
                else m.last_activity) rid⟩, []) := by
  simp [disconnect, h, hc, hmem]

theorem disconnect_keep (m : Manager) (rid cid : String) (mem : List (String × Bool)) (w : Bool)
    (h : dlookup m.active_rooms rid = some mem) (hc : dlookup mem cid = some w)
    (hmem : derase mem cid ≠ []) :
    disconnect m rid cid =
      (⟨dinsert m.active_rooms rid (derase mem cid),
        dinsert m.user_names rid (derase ((dlookup m.user_names rid).getD []) cid),
        if (dlookup ((dlookup m.last_activity rid).getD []) cid).isSome
        then dinsert m.last_activity rid (derase ((dlookup m.last_activity rid).getD []) cid)
        else m.last_activity⟩,
       [Event.leave rid cid
          ((dlookup ((dlookup m.user_names rid).getD []) cid).getD "Unknown user")
          (derase ((dlookup m.user_names rid).getD []) cid)]) := by
  simp [disconnect, h, hc, hmem, get_users, dlookup_dinsert_self]

theorem disconnect_frame (m : Manager) (rid cid r' : String) (hne : r' ≠ rid) :
    dlookup (disconnect m rid cid).1.active_rooms r' = dlookup m.active_rooms r' ∧
    dlookup (disconnect m rid cid).1.user_names r' = dlookup m.user_names r' ∧
    dlookup (disconnect m rid cid).1.last_activity r' = dlookup m.last_activity r' := by
  rcases ha : dlookup m.active_rooms rid with _ | mem
  · simp [disconnect_no_room m rid cid ha]
  · rcases hc : dlookup mem cid with _ | w
    · simp [disconnect_no_client m rid cid mem ha hc]
    · by_cases hmem : derase mem cid = []
      · rw [disconnect_delete m rid cid mem w ha hc hmem]
        refine ⟨?_, ?_, ?_⟩
        · simp [dlookup_derase_ne _ _ _ hne]
        · simp [dlookup_derase_ne _ _ _ hne]
        · rw [show (⟨derase m.active_rooms rid, derase m.user_names rid,
              derase (if (dlookup ((dlookup m.last_activity rid).getD []) cid).isSome
                      then dinsert m.last_activity rid (derase ((dlookup m.last_activity rid).getD []) cid)
                      else m.last_activity) rid⟩ : Manager).last_activity =
              derase (if (dlookup ((dlookup m.last_activity rid).getD []) cid).isSome
                      then dinsert m.last_activity rid (derase ((dlookup m.last_activity rid).getD []) cid)
                      else m.last_activity) rid from rfl]
          rw [dlookup_derase_ne _ _ _ hne]
          by_cases hla : (dlookup ((dlookup m.last_activity rid).getD []) cid).isSome
          · simp [hla, dlookup_dinsert_ne _ _ _ _ hne]
          · simp [hla]
      · rw [disconnect_keep m rid cid mem w ha hc hmem]
        refine ⟨?_, ?_, ?_⟩
        · simp [dlookup_dinsert_ne _ _ _ _ hne]
        · simp [dlookup_dinsert_ne _ _ _ _ hne]
        · by_cases hla : (dlookup ((dlookup m.last_activity rid).getD []) cid).isSome
          · simp [hla, dlookup_dinsert_ne _ _ _ _ hne]
          · simp [hla]

theorem nep_disconnect (m : Manager) (rid cid : String) (h : NoEmptyRooms m) :
    NoEmptyRooms (disconnect m rid cid).1 := by
  rcases ha : dlookup m.active_rooms rid with _ | mem
  · rw [disconnect_no_room m rid cid ha]
    exact h
  · rcases hc : dlookup mem cid with _ | w
    · rw [disconnect_no_client m rid cid mem ha hc]
      exact h
    · by_cases hmem : derase mem cid = []
      · rw [disconnect_delete m rid cid mem w ha hc hmem]
        intro p hp
        exact h p ((derase_sublist _ _).subset hp)
      · rw [disconnect_keep m rid cid mem w ha hc hmem]
        intro p hp
        rcases mem_dinsert _ _ _ p hp with hp2 | hp2
        · exact h p hp2
        · rw [hp2]
          simpa using hmem

end DisconnectLemmas

section NepLemmas

theorem nep_disconnect_fold (rid : String) :
    ∀ (ds : List String) (acc : Manager × List Event), NoEmptyRooms acc.1 →
      NoEmptyRooms ((ds.foldl
        (fun acc c =>
          let d := disconnect acc.1 rid c
          (d.1, acc.2 ++ d.2)) acc).1)
  | [], _, h => h
  | c :: t, acc, h =>
    nep_disconnect_fold rid t _ (nep_disconnect acc.1 rid c h)

theorem nep_broadcast (m : Manager) (rid : String) (ev : Event) (h : NoEmptyRooms m) :
    NoEmptyRooms (broadcast_to_room m rid ev).1 := by
  rcases ha : dlookup m.active_rooms rid with _ | mem
  · simp only [broadcast_to_room, ha]
    exact h
  · simp only [broadcast_to_room, ha]
    exact nep_disconnect_fold rid _ (m, []) h

theorem nep_register_state (m : Manager) (rid cid : String) (conn : Bool) (now : Nat)
    (h : NoEmptyRooms m) : NoEmptyRooms (register_state m rid cid conn now) := by
  intro p hp
  simp only [register_state] at hp
  rcases mem_dinsert _ _ _ p hp with hp2 | hp2
  · exact h p hp2
  · rw [hp2]
    simpa using dinsert_ne_nil _ cid conn

theorem nep_connect (m : Manager) (rid cid : String) (conn : Bool) (now : Nat)
    (h : NoEmptyRooms m) : NoEmptyRooms (connect m rid cid conn now).1 := by
  have h1 := nep_register_state m rid cid conn now h
  simp only [connect, broadcast_join]
  rcases ha : dlookup (register_state m rid cid conn now).active_rooms rid with _ | mem
  · exact h1
  · exact nep_broadcast _ _ _ h1

theorem nep_rename (m : Manager) (rid cid u : String) (h : NoEmptyRooms m) :
    NoEmptyRooms (update_username m rid cid u).1 := by
  rcases hn : dlookup m.user_names rid with _ | nr
  · simp only [update_username, hn]
    exact h
  · rcases hc : dlookup nr cid with _ | old
    · simp only [update_username, hn, hc]
      exact h
    · simp only [update_username, hn, hc]
      apply nep_broadcast
      exact h

theorem nep_touch (m : Manager) (rid cid : String) (now : Nat) (h : NoEmptyRooms m) :
    NoEmptyRooms (update_activity m rid cid now) := by
  rcases hla : dlookup m.last_activity rid with _ | lr
  · simp only [update_activity, hla]
    exact h
  · simp only [update_activity, hla]
    exact h

theorem nep_sweepStep (now timeout : Nat) (rid : String) (acc : Manager × Nat) (c : String)
    (h : NoEmptyRooms acc.1) : NoEmptyRooms (sweepStep now timeout rid acc c).1 := by
  rcases hla : dlookup acc.1.last_activity rid with _ | lr
  · simp only [sweepStep, hla]
    exact h
  · rcases hc : dlookup lr c with _ | t
    · simp only [sweepStep, hla, hc]
      exact h
    · by_cases ht : now - t > timeout
      · simp only [sweepStep, hla, hc, if_pos ht]
        exact nep_disconnect _ _ _ h
      · simp only [sweepStep, hla, hc, if_neg ht]
        exact h

theorem nep_sweep_clients (now timeout : Nat) (rid : String) :
    ∀ (cs : List String) (acc : Manager × Nat), NoEmptyRooms acc.1 →
      NoEmptyRooms ((cs.foldl (sweepStep now timeout rid) acc).1)
  | [], _, h => h
  | c :: t, acc, h =>
    nep_sweep_clients now timeout rid t _ (nep_sweepStep now timeout rid acc c h)

theorem nep_sweepRoom (now timeout : Nat) (acc : Manager × Nat) (rid : String)
    (h : NoEmptyRooms acc.1) : NoEmptyRooms (sweepRoom now timeout acc rid).1 := by
  rcases ha : dlookup acc.1.active_rooms rid with _ | mem
  · simp only [sweepRoom, ha]
    exact h
  · by_cases he : mem.isEmpty
    · simp only [sweepRoom, ha, if_pos he]
      exact h
    · simp only [sweepRoom, ha, if_neg he]
      exact nep_sweep_clients now timeout rid _ acc h

theorem nep_sweep_rooms (now timeout : Nat) :
    ∀ (rs : List String) (acc : Manager × Nat), NoEmptyRooms acc.1 →
      NoEmptyRooms ((rs.foldl (sweepRoom now timeout) acc).1)
  | [], _, h => h
  | r :: t, acc, h =>
    nep_sweep_rooms now timeout t _ (nep_sweepRoom now timeout acc r h)

theorem nep_sweep (m : Manager) (now timeout : Nat) (h : NoEmptyRooms m) :
    NoEmptyRooms (cleanup_inactive_connections m now timeout).1 := by
  simp only [cleanup_inactive_connections]
  exact nep_sweep_rooms now timeout _ (m, 0) h

end NepLemmas

/-- C4: after every registry operation (register, deregister, rename, touch,
sweep) on a state without empty room entries, the registry still has no room
entry with an empty member map, and every room entry holds at least one live
client. -/
theorem c4_registry_no_empty_rooms (op : RegistryOp) (m : Manager) (h : NoEmptyRooms m) :
    NoEmptyRooms (applyOp op m) ∧
    ∀ rid mem, dlookup (applyOp op m).active_rooms rid = some mem →
      ∃ cid w, dlookup mem cid = some w := by
  have hn : NoEmptyRooms (applyOp op m) := by
    cases op with
    | reg rid cid conn now => exact nep_connect m rid cid conn now h
    | dereg rid cid => exact nep_disconnect m rid cid h
    | ren rid cid u => exact nep_rename m rid cid u h
    | tch rid cid now => exact nep_touch m rid cid now h
    | swp now timeout => exact nep_sweep m now timeout h
  refine ⟨hn, ?_⟩
  intro rid mem hm
  have hne := hn (rid, mem) (dlookup_some_mem _ _ _ hm)
  cases mem with
  | nil => simp at hne
  | cons e t => exact ⟨e.1, e.2, by simp [dlookup]⟩

/-- Witness for C4 at a deregistration on a two-member room. -/
theorem c4_witness :
    NoEmptyRooms w2 ∧ NoEmptyRooms (applyOp (RegistryOp.dereg "r" "a") w2) :=
  ⟨by decide, (c4_registry_no_empty_rooms (RegistryOp.dereg "r" "a") w2 (by decide)).1⟩

/-- C10: a newly created room is persisted with min_value 1, max_value 100
and with_replacement true; creation stores only the identifier and the
coin-flip flag (plus the creation timestamp default) and returns the room
redirect. -/
theorem c10_create_room_defaults (store : List (String × RoomRec)) (rid : String) (t : Nat) (coin : Bool) :
    dlookup (create_room store rid t coin).1 rid = some (RoomRec.mk rid t coin 1 100 true) ∧
    (create_room store rid t coin).2 = "/room/" ++ rid := by
  constructor
  · rw [show (create_room store rid t coin).1 = dinsert store rid (mkRoom rid t coin) from rfl]
    rw [dlookup_dinsert_self]
    rfl
  · rfl

/-- C8 (amended): an unrecognized inbound message kind is ignored, except
that the receive loop refreshes the client's activity timestamp before
dispatch: no room store change, no log, no broadcast, no error, and the
registry changes exactly by update_activity. -/
theorem c8_unrecognized_ignored (m : Manager) (room : RoomRec) (rid cid k : String) (now seed : Nat) :
    handle_message m room rid cid (InMsg.other k) now seed =
      ⟨update_activity m rid cid now, room, [], [], Ctl.next⟩ := rfl

/-- Counterexample to C8 as stated: an unrecognized message received from a
registered client does change the Room Registry, refreshing the client's
last-activity timestamp. -/
theorem c8_counterexample :
    (handle_message w1 (mkRoom "r" 0 false) "r" "a" (InMsg.other "bogus") 5 0).mgr ≠ w1 ∧
    memberLast (handle_message w1 (mkRoom "r" 0 false) "r" "a" (InMsg.other "bogus") 5 0).mgr "r" "a" = some 5 ∧
    memberLast w1 "r" "a" = some 0 := by decide

/-- C9 (amended): touch is a no-op when the room has no last_activity entry;
when the room is present it writes the client's timestamp to now - even when
the client is not registered there - and changes nothing else. -/
theorem c9_touch (m : Manager) (rid cid : String) (now : Nat) :
    (dlookup m.last_activity rid = none → update_activity m rid cid now = m) ∧
    (∀ lr, dlookup m.last_activity rid = some lr →
      (update_activity m rid cid now).active_rooms = m.active_rooms ∧
      (update_activity m rid cid now).user_names = m.user_names ∧
      memberLast (update_activity m rid cid now) rid cid = some now ∧
      (∀ cid', cid' ≠ cid → memberLast (update_activity m rid cid now) rid cid' = memberLast m rid cid') ∧
      (∀ rid', rid' ≠ rid →
        dlookup (update_activity m rid cid now).last_activity rid' = dlookup m.last_activity rid')) := by
  constructor
  · intro h
    simp [update_activity, h]
  · intro lr h
    simp only [update_activity, h]
    refine ⟨by trivial, by trivial, ?_, ?_, ?_⟩
    · simp [memberLast, dlookup_dinsert_self]
    · intro cid' hne
      simp [memberLast, dlookup_dinsert_self, h, dlookup_dinsert_ne _ _ _ _ hne]
    · intro rid' hne
      simp [dlookup_dinsert_ne _ _ _ _ hne]

/-- Witness for C9: touching the unregistered client "b" of the existing
room "r" writes a timestamp for "b". -/
theorem c9_witness :
    dlookup w1.last_activity "r" = some [("a", 0)] ∧
    memberLast (update_activity w1 "r" "b" 7) "r" "b" = some 7 :=
  ⟨by decide, ((c9_touch w1 "r" "b" 7).2 [("a", 0)] (by decide)).2.2.1⟩

/-- Counterexample to C9 as stated: touching a client that is not registered
in an existing room is not a no-op - it creates a last-activity entry for
the absent client. -/
theorem c9_counterexample :
    memberConn w1 "r" "b" = none ∧
    update_activity w1 "r" "b" 7 ≠ w1 ∧
    memberLast (update_activity w1 "r" "b" 7) "r" "b" = some 7 := by decide

/-- C2 (amended): when an Active session ends through a transport-level
disconnection or a handler error, the endpoint deregisters the client from
the registry, and whenever the room entry survives (other members remain)
the deregistration emits the leave broadcast; a session ended by an explicit
disconnect message only breaks the receive loop and performs no
deregistration (the /api/disconnect beacon exists for that). -/
theorem c2_close_deregisters (cause : CloseCause) (m : Manager) (rid cid : String)
    (mem : List (String × Bool)) (w : Bool)
    (hcause : cause ≠ CloseCause.clientBreak)
    (ha : dlookup m.active_rooms rid = some mem)
    (hc : dlookup mem cid = some w)
    (hnd : (dkeys mem).Nodup)
    (hout : (dkeys m.active_rooms).Nodup) :
    memberConn (close_session cause m rid cid).1 rid cid = none ∧
    (dlookup (close_session cause m rid cid).1.active_rooms rid ≠ none →
      ∃ u us, (close_session cause m rid cid).2 = [Event.leave rid cid u us]) := by
  have hstep : close_session cause m rid cid = disconnect m rid cid := by
    cases cause with
    | clientBreak => exact absurd rfl hcause
    | wsDisconnect => rfl
    | handlerError => rfl
  rw [hstep]
  by_cases hmem : derase mem cid = []
  · rw [disconnect_delete m rid cid mem w ha hc hmem]
    have hnone : dlookup (derase m.active_rooms rid) rid = none :=
      dlookup_derase_self m.active_rooms rid hout
    constructor
    · simp [memberConn, hnone]
    · intro hcontra
      exact absurd hnone hcontra
  · rw [disconnect_keep m rid cid mem w ha hc hmem]
    constructor
    · simp [memberConn, dlookup_dinsert_self]
      exact dlookup_derase_self mem cid hnd
    · intro _
      exact ⟨_, _, rfl⟩

/-- Witness for C2 on the two-member room w3: a transport disconnect of "f"
deregisters it. -/
theorem c2_witness :
    CloseCause.wsDisconnect ≠ CloseCause.clientBreak ∧
    memberConn (close_session CloseCause.wsDisconnect w3 "r" "f").1 "r" "f" = none :=
  ⟨by decide,
   (c2_close_deregisters CloseCause.wsDisconnect w3 "r" "f" [("f", false), ("h", true)] false
     (by decide) (by decide) (by decide) (by decide) (by decide)).1⟩

/-- Counterexample to C2 as stated: a session that leaves Active through the
explicit disconnect message is not deregistered - the endpoint merely breaks
its loop and the client "a" stays in the registry with no leave broadcast. -/
theorem c2_counterexample :
    close_session CloseCause.clientBreak w1 "r" "a" = (w1, []) ∧
    memberConn w1 "r" "a" = some true := by decide

theorem randint_bounds (seed : Nat) (lo hi : Int) (h : lo ≤ hi) :
    ∃ r, randint seed lo hi = some r ∧ lo ≤ r ∧ r ≤ hi := by
  refine ⟨lo + (seed : Int) % (hi - lo + 1), ?_, ?_, ?_⟩
  · simp [randint, h]
  · have h0 : 0 ≤ (seed : Int) % (hi - lo + 1) := Int.emod_nonneg _ (by omega)
    omega
  · have h1 : (seed : Int) % (hi - lo + 1) < hi - lo + 1 := Int.emod_lt_of_pos _ (by omega)
    omega

/-- C1 (amended): a parameter update submitted through the update_params
route with min >= max is rejected with the validation error and the stored
bounds are unchanged; for every resolved min < max a number_draw succeeds
with an integer r satisfying min <= r <= max (and every log row it appends
records that r).  A parameter update carried inside a number_draw message is
not validated: resolved min > max is persisted to the room row and the draw
then raises, surfacing as a handler error after the commit. -/
theorem c1_parameter_validation :
    (∀ (store : List (String × RoomRec)) (rid : String) (mn mx : Int) (repl : Bool) (room : RoomRec),
      dlookup store rid = some room → mx ≤ mn →
      update_params store rid mn mx repl = (store, UpdResult.errValidation)) ∧
    (∀ (m : Manager) (room : RoomRec) (rid cid : String) (dm : DrawMsg) (now seed : Nat),
      dm.min_value.getD room.min_value < dm.max_value.getD room.max_value →
      ∃ r : Int,
        randint seed (dm.min_value.getD room.min_value) (dm.max_value.getD room.max_value) = some r ∧
        dm.min_value.getD room.min_value ≤ r ∧
        r ≤ dm.max_value.getD room.max_value ∧
        (handle_message m room rid cid (InMsg.numberDraw dm) now seed).ctl = Ctl.next ∧
        ∀ e ∈ (handle_message m room rid cid (InMsg.numberDraw dm) now seed).logs,
          e.result = toString r) ∧
    (∀ (m : Manager) (room : RoomRec) (rid cid : String) (dm : DrawMsg) (now seed : Nat),
      dm.max_value.getD room.max_value < dm.min_value.getD room.min_value →
      (handle_message m room rid cid (InMsg.numberDraw dm) now seed).ctl = Ctl.err ∧
      (handle_message m room rid cid (InMsg.numberDraw dm) now seed).room.min_value =
        dm.min_value.getD room.min_value ∧
      (handle_message m room rid cid (InMsg.numberDraw dm) now seed).room.max_value =
        dm.max_value.getD room.max_value) := by
  refine ⟨?_, ?_, ?_⟩
  · intro store rid mn mx repl room hroom hle
    simp [update_params, hroom, hle]
  · intro m room rid cid dm now seed h
    obtain ⟨r, hr, h1, h2⟩ := randint_bounds seed _ _ (le_of_lt h)
    refine ⟨r, hr, h1, h2, ?_, ?_⟩
    · simp [handle_message, hr]
    · intro e he
      simp only [handle_message, hr] at he
      rcases hb : dlookup (update_activity m rid cid now).active_rooms rid with _ | mm
      · simp [broadcast_random_action, hb] at he
      · simp [broadcast_random_action, hb] at he
        rw [he]
  · intro m room rid cid dm now seed h
    have hrn : randint seed (dm.min_value.getD room.min_value) (dm.max_value.getD room.max_value) = none := by
      unfold randint
      rw [if_neg (not_le.mpr h)]
    refine ⟨?_, ?_, ?_⟩
    · simp [handle_message, hrn]
    · simp only [handle_message, hrn]
      simp only [Bool.or_eq_true, decide_eq_true_eq]
      split
      · rfl
      · rename_i hc
        push_neg at hc
        exact hc.1.1.symm
    · simp only [handle_message, hrn]
      simp only [Bool.or_eq_true, decide_eq_true_eq]
      split
      · rfl
      · rename_i hc
        push_neg at hc
        exact hc.1.2.symm

/-- Witness for C1: the route rejects 5 >= 3 leaving the store unchanged,
and a draw over 1..6 yields an in-range result. -/
theorem c1_witness :
    update_params wStore "r" 5 3 true = (wStore, UpdResult.errValidation) ∧
    ∃ r : Int,
      randint 7 (((some 1 : Option Int)).getD (mkRoom "r" 0 false).min_value)
        (((some 6 : Option Int)).getD (mkRoom "r" 0 false).max_value) = some r ∧
      ((some 1 : Option Int)).getD (mkRoom "r" 0 false).min_value ≤ r ∧
      r ≤ ((some 6 : Option Int)).getD (mkRoom "r" 0 false).max_value ∧
      (handle_message w1 (mkRoom "r" 0 false) "r" "a"
        (InMsg.numberDraw ⟨some 1, some 6, none⟩) 5 7).ctl = Ctl.next ∧
      ∀ e ∈ (handle_message w1 (mkRoom "r" 0 false) "r" "a"
        (InMsg.numberDraw ⟨some 1, some 6, none⟩) 5 7).logs, e.result = toString r :=
  ⟨c1_parameter_validation.1 wStore "r" 5 3 true (mkRoom "r" 0 false) (by decide) (by decide),
   c1_parameter_validation.2.1 w1 (mkRoom "r" 0 false) "r" "a" ⟨some 1, some 6, none⟩ 5 7 (by decide)⟩

/-- Counterexample to C1 as stated: a number_draw message carrying
min_value 5, max_value 3 against a room storing 1..100 is not rejected with
a validation error - the invalid bounds are persisted to the room row and
the handler then errors. -/
theorem c1_counterexample :
    (mkRoom "r" 0 false).min_value = 1 ∧
    (mkRoom "r" 0 false).max_value = 100 ∧
    (handle_message w1 (mkRoom "r" 0 false) "r" "a"
      (InMsg.numberDraw ⟨some 5, some 3, none⟩) 5 0).room.min_value = 5 ∧
    (handle_message w1 (mkRoom "r" 0 false) "r" "a"
      (InMsg.numberDraw ⟨some 5, some 3, none⟩) 5 0).room.max_value = 3 ∧
    (handle_message w1 (mkRoom "r" 0 false) "r" "a"
      (InMsg.numberDraw ⟨some 5, some 3, none⟩) 5 0).ctl = Ctl.err := by decide

section BroadcastLemmas

theorem memberConn_disconnect_self (m : Manager) (rid cid : String)
    (hout : (dkeys m.active_rooms).Nodup)
    (hin : ∀ mem, dlookup m.active_rooms rid = some mem → (dkeys mem).Nodup) :
    memberConn (disconnect m rid cid).1 rid cid = none := by
  rcases ha : dlookup m.active_rooms rid with _ | mem
  · rw [disconnect_no_room _ _ _ ha]
    simp [memberConn, ha]
  · rcases hc : dlookup mem cid with _ | w
    · rw [disconnect_no_client _ _ _ _ ha hc]
      simp [memberConn, ha, hc]
    · by_cases hmem : derase mem cid = []
      · rw [disconnect_delete _ _ _ _ _ ha hc hmem]
        simp [memberConn, dlookup_derase_self _ _ hout]
      · rw [disconnect_keep _ _ _ _ _ ha hc hmem]
        simp [memberConn, dlookup_dinsert_self]
        exact dlookup_derase_self mem cid (hin mem ha)

theorem memberConn_disconnect_none (m : Manager) (rid cid c : String)
    (hout : (dkeys m.active_rooms).Nodup)
    (h : memberConn m rid cid = none) :
    memberConn (disconnect m rid c).1 rid cid = none := by
  rcases ha : dlookup m.active_rooms rid with _ | mem
  · rcases ha2 : dlookup m.active_rooms rid with _ | mem2
    · rcases hc2 : dlookup ([] : List (String × Bool)) c with _ | w2
      · rw [disconnect_no_room _ _ _ ha]
        exact h
      · simp [dlookup] at hc2
    · rw [ha] at ha2
      cases ha2
  · have hmc : dlookup mem cid = none := by
      simpa [memberConn, ha] using h
    rcases hc : dlookup mem c with _ | w
    · rw [disconnect_no_client _ _ _ _ ha hc]
      exact h
    · by_cases hmem : derase mem c = []
      · rw [disconnect_delete _ _ _ _ _ ha hc hmem]
        simp [memberConn, dlookup_derase_self _ _ hout]
      · rw [disconnect_keep _ _ _ _ _ ha hc hmem]
        simp only [memberConn, dlookup_dinsert_self, Option.some_bind]
        by_cases hcc : cid = c
        · subst hcc
          rw [derase_of_lookup_none mem cid hmc]
          exact hmc
        · rw [dlookup_derase_ne mem c cid hcc]
          exact hmc

theorem nodups_disconnect (m : Manager) (rid c : String)
    (hout : (dkeys m.active_rooms).Nodup)
    (hin : ∀ mem, dlookup m.active_rooms rid = some mem → (dkeys mem).Nodup) :
    (dkeys (disconnect m rid c).1.active_rooms).Nodup ∧
    (∀ mem, dlookup (disconnect m rid c).1.active_rooms rid = some mem → (dkeys mem).Nodup) := by
  rcases ha : dlookup m.active_rooms rid with _ | mem
  · rw [disconnect_no_room _ _ _ ha]
    exact ⟨hout, hin⟩
  · rcases hc : dlookup mem c with _ | w
    · rw [disconnect_no_client _ _ _ _ ha hc]
      exact ⟨hout, hin⟩
    · by_cases hmem : derase mem c = []
      · rw [disconnect_delete _ _ _ _ _ ha hc hmem]
        refine ⟨nodup_dkeys_derase _ _ hout, ?_⟩
        intro mem2 hm2
        rw [show (⟨derase m.active_rooms rid, derase m.user_names rid, _⟩ : Manager).active_rooms
            = derase m.active_rooms rid from rfl] at hm2
        rw [dlookup_derase_self _ _ hout] at hm2
        cases hm2
      · rw [disconnect_keep _ _ _ _ _ ha hc hmem]
        have hmemk : rid ∈ dkeys m.active_rooms := by
          by_contra hcon
          rw [(dlookup_eq_none_iff _ _).mpr hcon] at ha
          cases ha
        constructor
        · rw [show (⟨dinsert m.active_rooms rid (derase mem c), _, _⟩ : Manager).active_rooms
            = dinsert m.active_rooms rid (derase mem c) from rfl]
          rw [dkeys_dinsert_of_mem _ _ _ hmemk]
          exact hout
        · intro mem2 hm2
          rw [show (⟨dinsert m.active_rooms rid (derase mem c), _, _⟩ : Manager).active_rooms
            = dinsert m.active_rooms rid (derase mem c) from rfl] at hm2
          rw [dlookup_dinsert_self] at hm2
          cases hm2
          exact nodup_dkeys_derase _ _ (hin mem ha)

theorem broadcast_cleanup_none (rid cid : String) :
    ∀ (ds : List String) (acc : Manager × List Event),
      (dkeys acc.1.active_rooms).Nodup →
      (∀ mem, dlookup acc.1.active_rooms rid = some mem → (dkeys mem).Nodup) →
      memberConn acc.1 rid cid = none →
      memberConn ((ds.foldl
        (fun acc c =>
          let d := disconnect acc.1 rid c
          (d.1, acc.2 ++ d.2)) acc).1) rid cid = none
  | [], _, _, _, h => h
  | c :: t, acc, hout, hin, h =>
    broadcast_cleanup_none rid cid t _
      (nodups_disconnect acc.1 rid c hout hin).1
      (nodups_disconnect acc.1 rid c hout hin).2
      (memberConn_disconnect_none acc.1 rid cid c hout h)

theorem broadcast_cleanup_removes (rid : String) :
    ∀ (ds : List String) (acc : Manager × List Event),
      (dkeys acc.1.active_rooms).Nodup →
      (∀ mem, dlookup acc.1.active_rooms rid = some mem → (dkeys mem).Nodup) →
      ∀ cid ∈ ds,
        memberConn ((ds.foldl
          (fun acc c =>
            let d := disconnect acc.1 rid c
            (d.1, acc.2 ++ d.2)) acc).1) rid cid = none := by
  intro ds
  induction ds with
  | nil =>
    intro acc _ _ cid hc
    cases hc
  | cons c t ih =>
    intro acc hout hin cid hc
    have hstep := nodups_disconnect acc.1 rid c hout hin
    rcases List.mem_cons.mp hc with hc2 | hc2
    · subst hc2
      exact broadcast_cleanup_none rid cid t
        ((disconnect acc.1 rid cid).1, acc.2 ++ (disconnect acc.1 rid cid).2) hstep.1 hstep.2
        (memberConn_disconnect_self acc.1 rid cid hout hin)
    · exact ih ((disconnect acc.1 rid c).1, acc.2 ++ (disconnect acc.1 rid c).2)
        hstep.1 hstep.2 cid hc2

theorem mem_delivered_isSome (m : Manager) (rid : String) (ev : Event) (cid : String)
    (h : cid ∈ (broadcast_to_room m rid ev).2.1) : memberConn m rid cid ≠ none := by
  rcases ha : dlookup m.active_rooms rid with _ | mem
  · simp [broadcast_to_room, ha] at h
  · simp only [broadcast_to_room, ha] at h
    simp only [List.mem_map] at h
    obtain ⟨e, he, hfst⟩ := h
    have hk : cid ∈ dkeys mem := by
      rw [← hfst]
      exact List.mem_map_of_mem _ (List.mem_filter.mp he).1
    obtain ⟨v, hv⟩ := mem_dkeys_exists mem cid hk
    simp [memberConn, ha, hv]

end BroadcastLemmas

/-- C3 (amended): for broadcasts performed through broadcast_to_room (join,
leave, name_change, random_action events), a delivery failure to one
recipient does not prevent delivery to the healthy recipients, and every
recipient whose delivery failed is deregistered from the room, so it is not
among the recipients of any subsequent broadcast in that room.  The
parameter_update broadcast path, however, only counts its failures and does
not deregister failing recipients (see counterexample). -/
theorem c3_broadcast_failure_isolation (m : Manager) (rid : String) (ev ev' : Event)
    (mem : List (String × Bool))
    (ha : dlookup m.active_rooms rid = some mem)
    (hnd : (dkeys mem).Nodup)
    (hout : (dkeys m.active_rooms).Nodup) :
    (∀ cid, dlookup mem cid = some true → cid ∈ (broadcast_to_room m rid ev).2.1) ∧
    (∀ cid, dlookup mem cid = some false →
      memberConn (broadcast_to_room m rid ev).1 rid cid = none ∧
      cid ∉ (broadcast_to_room (broadcast_to_room m rid ev).1 rid ev').2.1) := by
  have hin : ∀ mem2, dlookup m.active_rooms rid = some mem2 → (dkeys mem2).Nodup := by
    intro mem2 hm2
    rw [ha] at hm2
    cases hm2
    exact hnd
  constructor
  · intro cid hcid
    simp only [broadcast_to_room, ha]
    have hm : (cid, true) ∈ mem := dlookup_some_mem _ _ _ hcid
    simp only [List.mem_map]
    refine ⟨(cid, true), ?_, rfl⟩
    simp [List.mem_filter, hm]
  · intro cid hcid
    have hm : (cid, false) ∈ mem := dlookup_some_mem _ _ _ hcid
    have hfail : cid ∈ (mem.filter (fun e => !e.2)).map (fun e => e.1) := by
      simp only [List.mem_map]
      refine ⟨(cid, false), ?_, rfl⟩
      simp [List.mem_filter, hm]
    have hnone : memberConn (broadcast_to_room m rid ev).1 rid cid = none := by
      simp only [broadcast_to_room, ha]
      exact broadcast_cleanup_removes rid _ (m, []) hout hin cid hfail
    refine ⟨hnone, ?_⟩
    intro hdel
    exact mem_delivered_isSome _ _ _ _ hdel hnone

/-- Witness for C3 on room "r" of w3: "h" is delivered to and the failing
"f" is deregistered by the broadcast. -/
theorem c3_witness :
    dlookup w3.active_rooms "r" = some [("f", false), ("h", true)] ∧
    "h" ∈ (broadcast_to_room w3 "r" (Event.heartbeatAck "x")).2.1 ∧
    memberConn (broadcast_to_room w3 "r" (Event.heartbeatAck "x")).1 "r" "f" = none :=
  ⟨by decide,
   (c3_broadcast_failure_isolation w3 "r" (Event.heartbeatAck "x") (Event.heartbeatAck "y")
     [("f", false), ("h", true)] (by decide) (by decide) (by decide)).1 "h" (by decide),
   ((c3_broadcast_failure_isolation w3 "r" (Event.heartbeatAck "x") (Event.heartbeatAck "y")
     [("f", false), ("h", true)] (by decide) (by decide) (by decide)).2 "f" (by decide)).1⟩

/-- Counterexample to C3 as stated: the parameter_update broadcast attempts
each recipient and fails on "f", yet leaves the registry unchanged - the
failing recipient "f" stays registered and will be attempted by subsequent
broadcasts in the room. -/
theorem c3_counterexample :
    memberConn w3 "r" "f" = some false ∧
    (broadcast_parameter_update w3 "r" "h" 1 6 true).1 = w3 ∧
    memberConn (broadcast_parameter_update w3 "r" "h" 1 6 true).1 "r" "f" = some false := by decide

theorem filter_eq_nil_of_all {β : Type} (p : β → Bool) (l : List β)
    (h : ∀ e ∈ l, p e = false) : l.filter p = [] := by
  induction l with
  | nil => simp
  | cons e t ih =>
    have he := h e (List.mem_cons_self e t)
    simp [List.filter_cons, he, ih (fun e' he' => h e' (List.mem_cons_of_mem _ he'))]

theorem derase_dinsert_none {α : Type} (l : List (String × α)) (k : String) (v : α)
    (h : dlookup l k = none) : derase (dinsert l k v) k = l := by
  rw [dinsert_of_lookup_none l k v h]
  exact derase_append_last l k v h

theorem disconnect_keep_fields (m : Manager) (rid cid : String) (mem : List (String × Bool)) (w : Bool)
    (ha : dlookup m.active_rooms rid = some mem) (hc : dlookup mem cid = some w)
    (hmem : derase mem cid ≠ []) :
    (disconnect m rid cid).1.active_rooms = dinsert m.active_rooms rid (derase mem cid) ∧
    (disconnect m rid cid).1.user_names =
      dinsert m.user_names rid (derase ((dlookup m.user_names rid).getD []) cid) ∧
    (disconnect m rid cid).1.last_activity =
      (if (dlookup ((dlookup m.last_activity rid).getD []) cid).isSome
       then dinsert m.last_activity rid (derase ((dlookup m.last_activity rid).getD []) cid)
       else m.last_activity) := by
  rw [disconnect_keep m rid cid mem w ha hc hmem]
  exact ⟨rfl, rfl, rfl⟩

theorem disconnect_delete_fields (m : Manager) (rid cid : String) (mem : List (String × Bool)) (w : Bool)
    (ha : dlookup m.active_rooms rid = some mem) (hc : dlookup mem cid = some w)
    (hmem : derase mem cid = []) :
    (disconnect m rid cid).1.active_rooms = derase m.active_rooms rid ∧
    (disconnect m rid cid).1.user_names = derase m.user_names rid ∧
    (disconnect m rid cid).1.last_activity =
      derase (if (dlookup ((dlookup m.last_activity rid).getD []) cid).isSome
              then dinsert m.last_activity rid (derase ((dlookup m.last_activity rid).getD []) cid)
              else m.last_activity) rid := by
  rw [disconnect_delete m rid cid mem w ha hc hmem]
  exact ⟨rfl, rfl, rfl⟩

theorem disconnect_other_keeps (m : Manager) (rid cid c : String) (hne : c ≠ cid)
    (h : memberConn m rid cid = some true) :
    memberConn (disconnect m rid c).1 rid cid = some true ∧
    memberName (disconnect m rid c).1 rid cid = memberName m rid cid ∧
    memberLast (disconnect m rid c).1 rid cid = memberLast m rid cid := by
  rcases ha : dlookup m.active_rooms rid with _ | mem
  · rw [disconnect_no_room _ _ _ ha]
    exact ⟨h, rfl, rfl⟩
  · rcases hc : dlookup mem c with _ | w
    · rw [disconnect_no_client _ _ _ _ ha hc]
      exact ⟨h, rfl, rfl⟩
    · have hcid : dlookup mem cid = some true := by
        simpa [memberConn, ha] using h
      have hne2 : cid ≠ c := fun hh => hne hh.symm
      have hcid2 : dlookup (derase mem c) cid = some true := by
        rw [dlookup_derase_ne mem c cid hne2]
        exact hcid
      by_cases hmem : derase mem c = []
      · rw [hmem] at hcid2
        simp [dlookup] at hcid2
      · obtain ⟨hf1, hf2, hf3⟩ := disconnect_keep_fields m rid c mem w ha hc hmem
        refine ⟨?_, ?_, ?_⟩
        · simp only [memberConn, hf1, dlookup_dinsert_self, Option.some_bind]
          exact hcid2
        · simp only [memberName, hf2, dlookup_dinsert_self, Option.some_bind]
          rcases hn : dlookup m.user_names rid with _ | nr
          · simp [hn, derase, dlookup]
          · simp [hn, dlookup_derase_ne _ _ _ hne2]
        · simp only [memberLast, hf3]
          by_cases hla : (dlookup ((dlookup m.last_activity rid).getD []) c).isSome
          · rw [if_pos hla, dlookup_dinsert_self]
            rcases hl : dlookup m.last_activity rid with _ | lr
            · simp [derase, dlookup]
            · simp only [Option.getD_some, Option.some_bind]
              exact dlookup_derase_ne lr c cid hne2
          · rw [if_neg hla]

theorem connect_prune_keeps (rid cid : String) :
    ∀ (ds : List String) (acc : Manager × List Event),
      (∀ c ∈ ds, c ≠ cid) →
      memberConn acc.1 rid cid = some true →
      memberConn ((ds.foldl
        (fun acc c =>
          let d := disconnect acc.1 rid c
          (d.1, acc.2 ++ d.2)) acc).1) rid cid = some true ∧
      memberName ((ds.foldl
        (fun acc c =>
          let d := disconnect acc.1 rid c
          (d.1, acc.2 ++ d.2)) acc).1) rid cid = memberName acc.1 rid cid ∧
      memberLast ((ds.foldl
        (fun acc c =>
          let d := disconnect acc.1 rid c
          (d.1, acc.2 ++ d.2)) acc).1) rid cid = memberLast acc.1 rid cid
  | [], _, _, h => ⟨h, rfl, rfl⟩
  | c :: t, acc, hds, h => by
    have hc := hds c (List.mem_cons_self c t)
    have hstep := disconnect_other_keeps acc.1 rid cid c hc h
    have hr := connect_prune_keeps rid cid t
      ((disconnect acc.1 rid c).1, acc.2 ++ (disconnect acc.1 rid c).2)
      (fun c' hc' => hds c' (List.mem_cons_of_mem _ hc')) hstep.1
    exact ⟨hr.1, hr.2.1.trans hstep.2.1, hr.2.2.trans hstep.2.2⟩

/-- C6 (amended): register(room, client) for a client id not already present
in the room assigns the display name "User N" with N the member count
before the registration plus one, initializes the client's last-activity
timestamp to now, and conveys the assigned name to the caller in the join
broadcast it delivers to the room (connect itself returns nothing; a
duplicate registration of an id already present reuses the unchanged member
count - see counterexample). -/
theorem c6_register_assigns_name (m : Manager) (rid cid : String) (now : Nat)
    (hnotmem : dlookup ((dlookup m.active_rooms rid).getD []) cid = none) :
    memberName (connect m rid cid true now).1 rid cid =
      some ("User " ++ toString (((dlookup m.active_rooms rid).getD []).length + 1)) ∧
    memberLast (connect m rid cid true now).1 rid cid = some now ∧
    memberConn (connect m rid cid true now).1 rid cid = some true ∧
    cid ∈ (connect m rid cid true now).2.1 ∧
    ∃ us tl, (connect m rid cid true now).2.2 =
      Event.join rid cid
        ("User " ++ toString (((dlookup m.active_rooms rid).getD []).length + 1)) us :: tl := by
  have hlen : (dinsert ((dlookup m.active_rooms rid).getD []) cid true).length
      = ((dlookup m.active_rooms rid).getD []).length + 1 :=
    length_dinsert_of_none _ _ _ hnotmem
  have haM : dlookup (register_state m rid cid true now).active_rooms rid
      = some (dinsert ((dlookup m.active_rooms rid).getD []) cid true) := by
    simp [register_state, dlookup_dinsert_self]
  have hnM : dlookup (register_state m rid cid true now).user_names rid
      = some (dinsert ((dlookup m.user_names rid).getD []) cid
          ("User " ++ toString (dinsert ((dlookup m.active_rooms rid).getD []) cid true).length)) := by
    simp [register_state, dlookup_dinsert_self]
  have hlM : dlookup (register_state m rid cid true now).last_activity rid
      = some (dinsert ((dlookup m.last_activity rid).getD []) cid now) := by
    simp [register_state, dlookup_dinsert_self]
  have hname1 : memberName (register_state m rid cid true now) rid cid
      = some ("User " ++ toString (((dlookup m.active_rooms rid).getD []).length + 1)) := by
    simp [memberName, hnM, dlookup_dinsert_self, hlen]
  have hconn1 : memberConn (register_state m rid cid true now) rid cid = some true := by
    simp [memberConn, haM, dlookup_dinsert_self]
  have hlast1 : memberLast (register_state m rid cid true now) rid cid = some now := by
    simp [memberLast, hlM, dlookup_dinsert_self]
  have huname : (dlookup ((dlookup (register_state m rid cid true now).user_names rid).getD []) cid).getD
      "Unknown user" = "User " ++ toString (((dlookup m.active_rooms rid).getD []).length + 1) := by
    rw [hnM]
    simp [dlookup_dinsert_self, hlen]
  have hfcid : ∀ c ∈ ((dinsert ((dlookup m.active_rooms rid).getD []) cid true).filter
      (fun e => !e.2)).map (fun e => e.1), c ≠ cid := by
    intro c hcmem
    simp only [List.mem_map] at hcmem
    obtain ⟨e, he, hfst⟩ := hcmem
    have he2 := List.mem_filter.mp he
    rcases mem_dinsert _ _ _ e he2.1 with h0 | h0
    · intro hcc
      apply (dlookup_eq_none_iff _ _).mp hnotmem
      rw [← hcc, ← hfst]
      exact List.mem_map_of_mem _ h0
    · rw [h0] at he2
      simp at he2
  have hkeep := connect_prune_keeps rid cid
    (((dinsert ((dlookup m.active_rooms rid).getD []) cid true).filter
      (fun e => !e.2)).map (fun e => e.1))
    (register_state m rid cid true now, ([] : List Event)) hfcid hconn1
  simp only [connect, broadcast_join, haM, broadcast_to_room]
  refine ⟨?_, ?_, ?_, ?_, ?_⟩
  · exact hkeep.2.1.trans hname1
  · exact hkeep.2.2.trans hlast1
  · exact hkeep.1
  · simp only [List.mem_map]
    refine ⟨(cid, true), ?_, rfl⟩
    simp [List.mem_filter, self_mem_dinsert]
  · rw [huname]
    exact ⟨_, _, rfl⟩

/-- Witness for C6: registering the new client "b" in the one-member room of
w1 names it "User 2" and stamps its activity. -/
theorem c6_witness :
    dlookup ((dlookup w1.active_rooms "r").getD []) "b" = none ∧
    memberName (connect w1 "r" "b" true 9).1 "r" "b" =
      some ("User " ++ toString (((dlookup w1.active_rooms "r").getD []).length + 1)) ∧
    memberLast (connect w1 "r" "b" true 9).1 "r" "b" = some 9 :=
  ⟨by decide,
   (c6_register_assigns_name w1 "r" "b" 9 (by decide)).1,
   (c6_register_assigns_name w1 "r" "b" 9 (by decide)).2.1⟩

/-- Counterexample to C6 as stated: registering the already-present client
"a" again leaves the member count at 1, so the assigned name is "User 1",
not member-count-before-plus-one ("User 2"). -/
theorem c6_counterexample :
    memberConn w1 "r" "a" = some true ∧
    ((dlookup w1.active_rooms "r").getD []).length = 1 ∧
    memberName (connect w1 "r" "a" true 5).1 "r" "a" = some "User 1" ∧
    ("User 1" : String) ≠ "User " ++ toString (1 + 1) := by decide

/-- C7 (amended): registering a not-currently-registered client and
immediately deregistering it returns the registry to the pre-register
membership snapshot - the member maps and display names of all rooms
exactly as before - provided every connection of the room delivers the
join broadcast that connect awaits.  When some member's socket is failing,
that broadcast prunes the failing member, so the snapshot is not restored
(see counterexample). -/
theorem c7_register_deregister_roundtrip (m : Manager) (rid cid : String) (now : Nat)
    (hnotmem : dlookup ((dlookup m.active_rooms rid).getD []) cid = none)
    (hnames : (dlookup m.active_rooms rid).isSome = (dlookup m.user_names rid).isSome)
    (hkeys : dkeys ((dlookup m.user_names rid).getD []) = dkeys ((dlookup m.active_rooms rid).getD []))
    (hne : NoEmptyRooms m)
    (hhealthy : ∀ e ∈ (dlookup m.active_rooms rid).getD [], e.2 = true) :
    (disconnect (connect m rid cid true now).1 rid cid).1.active_rooms = m.active_rooms ∧
    (disconnect (connect m rid cid true now).1 rid cid).1.user_names = m.user_names := by
  have haM : dlookup (register_state m rid cid true now).active_rooms rid
      = some (dinsert ((dlookup m.active_rooms rid).getD []) cid true) := by
    simp [register_state, dlookup_dinsert_self]
  have hfail : ((dinsert ((dlookup m.active_rooms rid).getD []) cid true).filter
      (fun e => !e.2)) = [] := by
    apply filter_eq_nil_of_all
    intro e he
    rcases mem_dinsert _ _ _ e he with h0 | h0
    · simp [hhealthy e h0]
    · rw [h0]
      rfl
  have hconn1 : (connect m rid cid true now).1 = register_state m rid cid true now := by
    simp only [connect, broadcast_join, haM, broadcast_to_room]
    rw [hfail]
    rfl
  rw [hconn1]
  have hcM : dlookup (dinsert ((dlookup m.active_rooms rid).getD []) cid true) cid = some true :=
    dlookup_dinsert_self _ _ _
  rcases ha : dlookup m.active_rooms rid with _ | mem0
  · -- the room did not exist: the whole room entry is created and removed again
    have hnames0 : dlookup m.user_names rid = none := by
      rcases hn : dlookup m.user_names rid with _ | nr
      · rfl
      · rw [ha, hn] at hnames
        simp at hnames
    have h0 : (dlookup m.active_rooms rid).getD [] = ([] : List (String × Bool)) := by
      rw [ha]
      rfl
    have hmemdel : derase (dinsert ((dlookup m.active_rooms rid).getD []) cid true) cid = [] := by
      rw [h0]
      simp [dinsert, derase]
    obtain ⟨hf1, hf2, _⟩ := disconnect_delete_fields (register_state m rid cid true now) rid cid
      (dinsert ((dlookup m.active_rooms rid).getD []) cid true) true haM hcM hmemdel
    constructor
    · rw [hf1]
      rw [show (register_state m rid cid true now).active_rooms
          = dinsert m.active_rooms rid (dinsert ((dlookup m.active_rooms rid).getD []) cid true)
          from rfl]
      exact derase_dinsert_none _ _ _ ha
    · rw [hf2]
      rw [show (register_state m rid cid true now).user_names
          = dinsert m.user_names rid (dinsert ((dlookup m.user_names rid).getD []) cid
              ("User " ++ toString (dinsert ((dlookup m.active_rooms rid).getD []) cid true).length))
          from rfl]
      exact derase_dinsert_none _ _ _ hnames0
  · -- the room existed with members mem0
    rcases hn : dlookup m.user_names rid with _ | names0
    · rw [ha, hn] at hnames
      simp at hnames
    have h0 : (dlookup m.active_rooms rid).getD [] = mem0 := by
      rw [ha]
      rfl
    have hn0 : (dlookup m.user_names rid).getD [] = names0 := by
      rw [hn]
      rfl
    have hnotmem0 : dlookup mem0 cid = none := by
      rw [h0] at hnotmem
      exact hnotmem
    have hnn : dlookup names0 cid = none := by
      rw [dlookup_eq_none_iff]
      rw [show dkeys names0 = dkeys ((dlookup m.user_names rid).getD []) from by rw [hn0]]
      rw [hkeys, h0]
      exact (dlookup_eq_none_iff _ _).mp hnotmem0
    have hne0 : mem0 ≠ [] := hne (rid, mem0) (dlookup_some_mem _ _ _ ha)
    have hmemkeep : derase (dinsert ((dlookup m.active_rooms rid).getD []) cid true) cid = mem0 := by
      rw [h0, dinsert_of_lookup_none _ _ _ hnotmem0]
      exact derase_append_last _ _ _ hnotmem0
    obtain ⟨hf1, hf2, _⟩ := disconnect_keep_fields (register_state m rid cid true now) rid cid
      (dinsert ((dlookup m.active_rooms rid).getD []) cid true) true haM hcM
      (by rw [hmemkeep]; exact hne0)
    constructor
    · rw [hf1, hmemkeep]
      rw [show (register_state m rid cid true now).active_rooms
          = dinsert m.active_rooms rid (dinsert ((dlookup m.active_rooms rid).getD []) cid true)
          from rfl]
      rw [dinsert_dinsert]
      exact dinsert_of_lookup_some _ _ _ ha
    · rw [hf2]
      have hnM : dlookup (register_state m rid cid true now).user_names rid
          = some (dinsert ((dlookup m.user_names rid).getD []) cid
              ("User " ++ toString (dinsert ((dlookup m.active_rooms rid).getD []) cid true).length)) := by
        simp [register_state, dlookup_dinsert_self]
      rw [hnM]
      rw [show (some (dinsert ((dlookup m.user_names rid).getD []) cid
          ("User " ++ toString (dinsert ((dlookup m.active_rooms rid).getD []) cid true).length))).getD []
          = dinsert ((dlookup m.user_names rid).getD []) cid
              ("User " ++ toString (dinsert ((dlookup m.active_rooms rid).getD []) cid true).length)
          from rfl]
      rw [hn0]
      rw [dinsert_of_lookup_none _ _ _ hnn, derase_append_last _ _ _ hnn]
      rw [show (register_state m rid cid true now).user_names
          = dinsert m.user_names rid (dinsert ((dlookup m.user_names rid).getD []) cid
              ("User " ++ toString (dinsert ((dlookup m.active_rooms rid).getD []) cid true).length))
          from rfl]
      rw [dinsert_dinsert]
      exact dinsert_of_lookup_some _ _ _ hn

/-- Witness for C7: register then deregister of "b" on w1 restores the
member maps and names. -/
theorem c7_witness :
    dlookup ((dlookup w1.active_rooms "r").getD []) "b" = none ∧
    (disconnect (connect w1 "r" "b" true 9).1 "r" "b").1.active_rooms = w1.active_rooms ∧
    (disconnect (connect w1 "r" "b" true 9).1 "r" "b").1.user_names = w1.user_names :=
  ⟨by decide,
   (c7_register_deregister_roundtrip w1 "r" "b" 9 (by decide) (by decide) (by decide)
     (by decide) (by decide)).1,
   (c7_register_deregister_roundtrip w1 "r" "b" 9 (by decide) (by decide) (by decide)
     (by decide) (by decide)).2⟩

/-- Counterexample to C7 as stated: on the registry state w3, whose room
"r" holds the failing-socket member "f", registering the fresh client "b"
delivers a join broadcast that fails on "f" and deregisters it, so the
immediate deregistration of "b" does not return the registry to the
pre-register membership snapshot. -/
theorem c7_counterexample :
    dlookup ((dlookup w3.active_rooms "r").getD []) "b" = none ∧
    memberConn w3 "r" "f" = some false ∧
    memberConn (disconnect (connect w3 "r" "b" true 9).1 "r" "b").1 "r" "f" = none ∧
    (disconnect (connect w3 "r" "b" true 9).1 "r" "b").1.active_rooms ≠ w3.active_rooms ∧
    (disconnect (connect w3 "r" "b" true 9).1 "r" "b").1.user_names ≠ w3.user_names := by
  decide

theorem lookup_some_mem_dkeys {α : Type} (l : List (String × α)) (k : String) (v : α)
    (h : dlookup l k = some v) : k ∈ dkeys l := by
  by_contra hc
  rw [(dlookup_eq_none_iff l k).mpr hc] at h
  cases h

theorem sweepStep_eq (now timeout : Nat) (r : String) (mc : Manager) (k : Nat) (c : String)
    (la_r : List (String × Nat)) (hl : dlookup mc.last_activity r = some la_r) (t : Nat)
    (hlc : dlookup la_r c = some t) :
    sweepStep now timeout r (mc, k) c =
      (if now - t > timeout then ((disconnect mc r c).1, k + 1) else (mc, k)) := by
  simp only [sweepStep, hl, hlc]

theorem disconnect_frame_triple (m : Manager) (rid cid r' : String) (hne : r' ≠ rid) :
    roomTriple (disconnect m rid cid).1 r' = roomTriple m r' := by
  obtain ⟨h1, h2, h3⟩ := disconnect_frame m rid cid r' hne
  simp [roomTriple, h1, h2, h3]

theorem sweep_clients_aux (now timeout : Nat) (r : String)
    (mem0 : List (String × Bool)) (names0 : List (String × String)) (la0 : List (String × Nat))
    (hndm : (dkeys mem0).Nodup) (hndl : (dkeys la0).Nodup)
    (hkeysn : dkeys names0 = dkeys mem0)
    (hsub : ∀ c ∈ dkeys mem0, c ∈ dkeys la0) :
    ∀ (cs ds : List String) (mc : Manager) (k : Nat),
      dkeys mem0 = ds ++ cs →
      NodupOuter mc →
      dlookup mc.active_rooms r = some (filterKey (sdPred la0 now timeout ds) mem0) →
      filterKey (sdPred la0 now timeout ds) mem0 ≠ [] →
      dlookup mc.user_names r = some (filterKey (sdPred la0 now timeout ds) names0) →
      dlookup mc.last_activity r = some (filterKey (sdPred la0 now timeout ds) la0) →
      (∀ r', r' ≠ r →
        roomTriple ((cs.foldl (sweepStep now timeout r) (mc, k)).1) r' = roomTriple mc r') ∧
      NodupOuter ((cs.foldl (sweepStep now timeout r) (mc, k)).1) ∧
      (filterKey (sdPred la0 now timeout (ds ++ cs)) mem0 = [] →
        roomTriple ((cs.foldl (sweepStep now timeout r) (mc, k)).1) r = (none, none, none)) ∧
      (filterKey (sdPred la0 now timeout (ds ++ cs)) mem0 ≠ [] →
        roomTriple ((cs.foldl (sweepStep now timeout r) (mc, k)).1) r =
          (some (filterKey (sdPred la0 now timeout (ds ++ cs)) mem0),
           some (filterKey (sdPred la0 now timeout (ds ++ cs)) names0),
           some (filterKey (sdPred la0 now timeout (ds ++ cs)) la0))) ∧
      ((cs.foldl (sweepStep now timeout r) (mc, k)).2 = k + cs.countP (tOut la0 now timeout)) := by
  intro cs
  induction cs with
  | nil =>
    intro ds mc k hsplit hnod ha hne hn hl
    refine ⟨fun r' _ => rfl, hnod, ?_, ?_, by simp⟩
    · intro habs
      rw [List.append_nil] at habs
      exact absurd habs hne
    · intro _
      rw [List.append_nil]
      simp [roomTriple, ha, hn, hl]
  | cons c cs' ih =>
    intro ds mc k hsplit hnod ha hne hn hl
    have hndsplit : (ds ++ c :: cs').Nodup := by rw [← hsplit]; exact hndm
    have hsplitnd := List.nodup_append.mp hndsplit
    have hcds : c ∉ ds := fun hcd => hsplitnd.2.2 hcd (List.mem_cons_self c cs')
    have hcc : c ∈ dkeys mem0 := by
      rw [hsplit]
      exact List.mem_append_right _ (List.mem_cons_self _ _)
    have hsdc : sdPred la0 now timeout ds c = true := by simp [sdPred, hcds]
    obtain ⟨t0, ht0⟩ := mem_dkeys_exists la0 c (hsub c hcc)
    have hlc : dlookup (filterKey (sdPred la0 now timeout ds) la0) c = some t0 := by
      rw [dlookup_filterKey, if_pos hsdc]
      exact ht0
    rw [List.foldl_cons, sweepStep_eq now timeout r mc k c _ hl t0 hlc]
    by_cases htout : now - t0 > timeout
    · rw [if_pos htout]
      have htoutc : tOut la0 now timeout c = true := by simp [tOut, ht0, htout]
      have hsd2 : ∀ x, sdPred la0 now timeout (ds ++ [c]) x
          = (sdPred la0 now timeout ds x && decide (x ≠ c)) := by
        intro x
        by_cases hx : x = c
        · subst hx
          simp [sdPred, hcds, htoutc]
        · simp [sdPred, List.mem_append, hx]
      have hndmF : (dkeys (filterKey (sdPred la0 now timeout ds) mem0)).Nodup := by
        rw [dkeys_filterKey]
        exact hndm.filter _
      have hndnF : (dkeys (filterKey (sdPred la0 now timeout ds) names0)).Nodup := by
        rw [dkeys_filterKey, hkeysn]
        exact hndm.filter _
      have hndlF : (dkeys (filterKey (sdPred la0 now timeout ds) la0)).Nodup := by
        rw [dkeys_filterKey]
        exact hndl.filter _
      have hder : ∀ {β : Type} (l : List (String × β)),
          (dkeys (filterKey (sdPred la0 now timeout ds) l)).Nodup →
          derase (filterKey (sdPred la0 now timeout ds) l) c
            = filterKey (sdPred la0 now timeout (ds ++ [c])) l := by
        intro β l hndf
        rw [derase_eq_filterKey _ _ hndf, filterKey_filterKey]
        exact filterKey_congr _ _ l (fun e _ => (hsd2 e.1).symm)
      obtain ⟨wc, hwc⟩ := mem_dkeys_exists mem0 c hcc
      have hmcx : dlookup (filterKey (sdPred la0 now timeout ds) mem0) c = some wc := by
        rw [dlookup_filterKey, if_pos hsdc]
        exact hwc
      have hlaif : (dlookup ((dlookup mc.last_activity r).getD []) c).isSome = true := by
        rw [hl]
        simp [hlc]
      have hrmem_a : r ∈ dkeys mc.active_rooms := lookup_some_mem_dkeys _ _ _ ha
      have hrmem_n : r ∈ dkeys mc.user_names := lookup_some_mem_dkeys _ _ _ hn
      have hrmem_l : r ∈ dkeys mc.last_activity := lookup_some_mem_dkeys _ _ _ hl
      by_cases hdel : derase (filterKey (sdPred la0 now timeout ds) mem0) c = []
      · have hdel' : filterKey (sdPred la0 now timeout (ds ++ [c])) mem0 = [] := by
          rw [← hder mem0 hndmF]
          exact hdel
        have hcs' : cs' = [] := by
          rcases hcs0 : cs' with _ | ⟨x, xs⟩
          · rfl
          · exfalso
            rw [hcs0] at hndsplit
            have hx : x ∈ dkeys mem0 := by
              rw [hsplit, hcs0]
              exact List.mem_append_right _ (List.mem_cons_of_mem _ (List.mem_cons_self _ _))
            have hx2 : x ∈ List.map (fun e => e.1) mem0 := hx
            obtain ⟨e, hem, hex⟩ := List.mem_map.mp hx2
            have hflat := (filterKey_eq_nil_iff _ _).mp hdel' e hem
            rw [hex] at hflat
            have hxin : x ∈ ds ++ [c] := by
              by_contra hxo
              simp [sdPred, hxo] at hflat
            have hnd3 := List.nodup_append.mp hndsplit
            rcases List.mem_append.mp hxin with hx1 | hx1
            · exact hnd3.2.2 hx1 (List.mem_cons_of_mem _ (List.mem_cons_self _ _))
            · have hxc : x = c := by simpa using hx1
              subst hxc
              have hcns := hnd3.2.1
              rw [List.nodup_cons] at hcns
              exact hcns.1 (List.mem_cons_self _ _)
        subst hcs'
        rw [List.foldl_nil]
        obtain ⟨hf1, hf2, hf3⟩ := disconnect_delete_fields mc r c _ wc ha hmcx hdel
        have hndla2 : (dkeys (dinsert mc.last_activity r
            (derase ((dlookup mc.last_activity r).getD []) c))).Nodup := by
          rw [dkeys_dinsert_of_mem _ _ _ hrmem_l]
          exact hnod.2.2
        refine ⟨?_, ?_, ?_, ?_, ?_⟩
        · intro r' hr'
          exact disconnect_frame_triple mc r c r' hr'
        · refine ⟨?_, ?_, ?_⟩
          · rw [hf1]
            exact nodup_dkeys_derase _ _ hnod.1
          · rw [hf2]
            exact nodup_dkeys_derase _ _ hnod.2.1
          · rw [hf3, if_pos hlaif]
            exact nodup_dkeys_derase _ _ hndla2
        · intro _
          simp only [roomTriple, hf1, hf2, hf3, if_pos hlaif]
          rw [dlookup_derase_self _ _ hnod.1, dlookup_derase_self _ _ hnod.2.1,
            dlookup_derase_self _ _ hndla2]
        · intro hcontra
          exact absurd hdel' hcontra
        · simp [List.countP_cons, htoutc]
      · obtain ⟨hf1, hf2, hf3⟩ := disconnect_keep_fields mc r c _ wc ha hmcx hdel
        have haeq : (disconnect mc r c).1.active_rooms
            = dinsert mc.active_rooms r (filterKey (sdPred la0 now timeout (ds ++ [c])) mem0) := by
          rw [hf1, hder mem0 hndmF]
        have hneq : (disconnect mc r c).1.user_names
            = dinsert mc.user_names r (filterKey (sdPred la0 now timeout (ds ++ [c])) names0) := by
          rw [hf2, hn]
          rw [show (some (filterKey (sdPred la0 now timeout ds) names0)).getD []
              = filterKey (sdPred la0 now timeout ds) names0 from rfl]
          rw [hder names0 hndnF]
        have hlaeq : (disconnect mc r c).1.last_activity
            = dinsert mc.last_activity r (filterKey (sdPred la0 now timeout (ds ++ [c])) la0) := by
          rw [hf3, if_pos hlaif, hl]
          rw [show (some (filterKey (sdPred la0 now timeout ds) la0)).getD []
              = filterKey (sdPred la0 now timeout ds) la0 from rfl]
          rw [hder la0 hndlF]
        have hnodup' : NodupOuter (disconnect mc r c).1 := by
          refine ⟨?_, ?_, ?_⟩
          · rw [haeq, dkeys_dinsert_of_mem _ _ _ hrmem_a]
            exact hnod.1
          · rw [hneq, dkeys_dinsert_of_mem _ _ _ hrmem_n]
            exact hnod.2.1
          · rw [hlaeq, dkeys_dinsert_of_mem _ _ _ hrmem_l]
            exact hnod.2.2
        have hne' : filterKey (sdPred la0 now timeout (ds ++ [c])) mem0 ≠ [] := by
          rw [← hder mem0 hndmF]
          exact hdel
        have hih := ih (ds ++ [c]) (disconnect mc r c).1 (k + 1)
          (by rw [hsplit, List.append_assoc]; rfl)
          hnodup'
          (by rw [haeq]; exact dlookup_dinsert_self _ _ _)
          hne'
          (by rw [hneq]; exact dlookup_dinsert_self _ _ _)
          (by rw [hlaeq]; exact dlookup_dinsert_self _ _ _)
        rw [List.append_assoc, List.singleton_append] at hih
        refine ⟨?_, hih.2.1, hih.2.2.1, hih.2.2.2.1, ?_⟩
        · intro r' hr'
          exact (hih.1 r' hr').trans (disconnect_frame_triple mc r c r' hr')
        · rw [hih.2.2.2.2, List.countP_cons]
          simp [htoutc]
          omega
    · rw [if_neg htout]
      have htoutc : tOut la0 now timeout c = false := by simp [tOut, ht0, htout]
      have hsdeq : ∀ x, sdPred la0 now timeout (ds ++ [c]) x = sdPred la0 now timeout ds x := by
        intro x
        by_cases hx : x = c
        · subst hx
          simp [sdPred, hcds, htoutc]
        · simp [sdPred, List.mem_append, hx]
      have hfeq : ∀ {β : Type} (l : List (String × β)),
          filterKey (sdPred la0 now timeout (ds ++ [c])) l
            = filterKey (sdPred la0 now timeout ds) l :=
        fun l => filterKey_congr _ _ l (fun e _ => hsdeq e.1)
      have hih := ih (ds ++ [c]) mc k
        (by rw [hsplit, List.append_assoc]; rfl)
        hnod
        (by rw [hfeq]; exact ha)
        (by rw [hfeq]; exact hne)
        (by rw [hfeq]; exact hn)
        (by rw [hfeq]; exact hl)
      rw [List.append_assoc, List.singleton_append] at hih
      refine ⟨hih.1, hih.2.1, hih.2.2.1, hih.2.2.2.1, ?_⟩
      rw [hih.2.2.2.2, List.countP_cons]
      simp [htoutc]

theorem sweep_rooms_aux (m0 : Manager) (now timeout : Nat) (hwf : SweepWf m0) :
    ∀ (rs : List String) (mc : Manager) (k : Nat),
      rs.Nodup →
      (∀ r ∈ rs, (dlookup m0.active_rooms r).isSome = true) →
      (∀ r ∈ rs, roomTriple mc r = roomTriple m0 r) →
      NodupOuter mc →
      (∀ r', r' ∉ rs →
        roomTriple ((rs.foldl (sweepRoom now timeout) (mc, k)).1) r' = roomTriple mc r') ∧
      NodupOuter ((rs.foldl (sweepRoom now timeout) (mc, k)).1) ∧
      (∀ r ∈ rs, sweepRoomSpec m0 now timeout r ((rs.foldl (sweepRoom now timeout) (mc, k)).1)) ∧
      ((rs.foldl (sweepRoom now timeout) (mc, k)).2 = k + (rs.map (cntRoom m0 now timeout)).sum) := by
  intro rs
  induction rs with
  | nil =>
    intro mc k _ _ _ hnod
    exact ⟨fun r' _ => rfl, hnod, fun r hr => absurd hr (List.not_mem_nil r), by simp⟩
  | cons r rs' ih =>
    intro mc k hnd hsome htrip hnod
    obtain ⟨mem0, hmem0⟩ : ∃ mem0, dlookup m0.active_rooms r = some mem0 := by
      rcases hx : dlookup m0.active_rooms r with _ | mm
      · have := hsome r (List.mem_cons_self r rs')
        rw [hx] at this
        cases this
      · exact ⟨mm, rfl⟩
    have hpmem : (r, mem0) ∈ m0.active_rooms := dlookup_some_mem _ _ _ hmem0
    have hmem0ne : mem0 ≠ [] := (hwf.2.2.2.1 (r, mem0) hpmem).1
    have hndm : (dkeys mem0).Nodup := (hwf.2.2.2.1 (r, mem0) hpmem).2
    have hnlookup := hwf.2.2.2.2.1 (r, mem0) hpmem
    obtain ⟨names0, hnames0⟩ : ∃ nr, dlookup m0.user_names r = some nr := by
      rcases hx : dlookup m0.user_names r with _ | nr
      · rw [hx] at hnlookup
        cases hnlookup
      · exact ⟨nr, rfl⟩
    have hkeysn : dkeys names0 = dkeys mem0 := by
      rw [hnames0] at hnlookup
      simpa using hnlookup
    have hlwf := hwf.2.2.2.2.2 (r, mem0) hpmem
    obtain ⟨la0, hla0⟩ : ∃ lr, dlookup m0.last_activity r = some lr := by
      rcases hx : dlookup m0.last_activity r with _ | lr
      · rw [hx] at hlwf
        simp at hlwf
      · exact ⟨lr, rfl⟩
    have hgetd : (dlookup m0.last_activity r).getD [] = la0 := by
      rw [hla0]
      rfl
    have hngetd : (dlookup m0.user_names r).getD [] = names0 := by
      rw [hnames0]
      rfl
    have hndl : (dkeys la0).Nodup := by
      have := hlwf.2.1
      rw [hgetd] at this
      exact this
    have hsub : ∀ c ∈ dkeys mem0, c ∈ dkeys la0 := by
      intro c hc
      have := hlwf.2.2 c hc
      rw [hgetd] at this
      exact this
    have htripr := htrip r (List.mem_cons_self r rs')
    have h1 : dlookup mc.active_rooms r = some mem0 := by
      have := congrArg (fun t => t.1) htripr
      simpa [roomTriple, hmem0] using this
    have h2 : dlookup mc.user_names r = some names0 := by
      have := congrArg (fun t => t.2.1) htripr
      simpa [roomTriple, hnames0] using this
    have h3 : dlookup mc.last_activity r = some la0 := by
      have := congrArg (fun t => t.2.2) htripr
      simpa [roomTriple, hla0] using this
    have hid : ∀ {β : Type} (l : List (String × β)),
        filterKey (sdPred la0 now timeout []) l = l := by
      intro β l
      rw [filterKey_congr _ (fun _ => true) l (by intro e _; simp [sdPred])]
      exact filterKey_true l
    have hempty : mem0.isEmpty = false := by
      cases mem0 with
      | nil => exact absurd rfl hmem0ne
      | cons e t => rfl
    have hrstep : sweepRoom now timeout (mc, k) r
        = (dkeys mem0).foldl (sweepStep now timeout r) (mc, k) := by
      simp only [sweepRoom, h1, hempty]
      rfl
    have hinner := sweep_clients_aux now timeout r mem0 names0 la0 hndm hndl hkeysn hsub
      (dkeys mem0) [] mc k (by simp) hnod
      (by rw [hid]; exact h1)
      (by rw [hid]; exact hmem0ne)
      (by rw [hid]; exact h2)
      (by rw [hid]; exact h3)
    rw [List.nil_append] at hinner
    rw [List.foldl_cons, hrstep]
    have hpair : ((dkeys mem0).foldl (sweepStep now timeout r) (mc, k))
        = (((dkeys mem0).foldl (sweepStep now timeout r) (mc, k)).1,
           ((dkeys mem0).foldl (sweepStep now timeout r) (mc, k)).2) := rfl
    rw [hpair]
    have hih := ih (((dkeys mem0).foldl (sweepStep now timeout r) (mc, k)).1)
      (((dkeys mem0).foldl (sweepStep now timeout r) (mc, k)).2)
      (List.nodup_cons.mp hnd).2
      (fun r2 h2x => hsome r2 (List.mem_cons_of_mem _ h2x))
      (fun r2 hr2 => by
        have hne2 : r2 ≠ r := by
          intro he
          subst he
          exact (List.nodup_cons.mp hnd).1 hr2
        exact (hinner.1 r2 hne2).trans (htrip r2 (List.mem_cons_of_mem _ hr2)))
      hinner.2.1
    refine ⟨?_, hih.2.1, ?_, ?_⟩
    · intro r' hr'
      have hr'rs : r' ∉ rs' := fun hx => hr' (List.mem_cons_of_mem _ hx)
      have hr'ne : r' ≠ r := fun hx => hr' (hx ▸ List.mem_cons_self r rs')
      exact (hih.1 r' hr'rs).trans (hinner.1 r' hr'ne)
    · intro rr hrr
      rcases List.mem_cons.mp hrr with hrr2 | hrr2
      · subst hrr2
        intro mem0' hm'
        rw [hmem0] at hm'
        injection hm' with hm'
        subst hm'
        have hfr : roomTriple ((rs'.foldl (sweepRoom now timeout)
            (((dkeys mem0).foldl (sweepStep now timeout rr) (mc, k)).1,
             ((dkeys mem0).foldl (sweepStep now timeout rr) (mc, k)).2)).1) rr
            = roomTriple (((dkeys mem0).foldl (sweepStep now timeout rr) (mc, k)).1) rr :=
          hih.1 rr (List.nodup_cons.mp hnd).1
        rw [hgetd, hngetd]
        constructor
        · intro hemp
          rw [hfr]
          exact hinner.2.2.1 hemp
        · intro hne2
          rw [hfr]
          exact hinner.2.2.2.1 hne2
      · exact hih.2.2.1 rr hrr2
    · have hcnt : cntRoom m0 now timeout r = (dkeys mem0).countP (tOut la0 now timeout) := by
        simp [cntRoom, hmem0, hgetd]
      rw [List.map_cons, List.sum_cons]
      rw [hih.2.2.2, hinner.2.2.2.2, hcnt]
      omega

theorem map_congr_mem {β γ : Type} (f g : β → γ) :
    ∀ (l : List β), (∀ a ∈ l, f a = g a) → l.map f = l.map g
  | [], _ => rfl
  | a :: t, h => by
    rw [List.map_cons, List.map_cons, h a (List.mem_cons_self a t),
      map_congr_mem f g t (fun b hb => h b (List.mem_cons_of_mem _ hb))]

theorem countP_congr_mem {β : Type} (p q : β → Bool) :
    ∀ (l : List β), (∀ a ∈ l, p a = q a) → l.countP p = l.countP q
  | [], _ => rfl
  | a :: t, h => by
    rw [List.countP_cons, List.countP_cons, h a (List.mem_cons_self a t),
      countP_congr_mem p q t (fun b hb => h b (List.mem_cons_of_mem _ hb))]

theorem countP_dkeys {β : Type} (q : String → Bool) (l : List (String × β)) :
    (dkeys l).countP q = l.countP (fun e => q e.1) := by
  induction l with
  | nil => rfl
  | cons e t ih =>
    simp [dkeys, List.countP_cons] at ih ⊢
    omega

/-- C5: one invocation of the sweep (cleanup_inactive_connections with its
now and timeout) on a well-formed registry removes exactly the registered
members whose inactivity strictly exceeds the timeout, leaves the connection
handle, display name and last-activity timestamp of every other member
untouched, and returns the number of removed members. -/
theorem c5_sweep (m : Manager) (now timeout : Nat) (hwf : SweepWf m) :
    (∀ rid cid, memberConn (cleanup_inactive_connections m now timeout).1 rid cid =
      (if timedOut m now timeout rid cid then none else memberConn m rid cid)) ∧
    (∀ rid cid, memberConn m rid cid ≠ none → timedOut m now timeout rid cid = false →
      memberName (cleanup_inactive_connections m now timeout).1 rid cid = memberName m rid cid ∧
      memberLast (cleanup_inactive_connections m now timeout).1 rid cid = memberLast m rid cid) ∧
    ((cleanup_inactive_connections m now timeout).2 = countRemoved m now timeout) := by
  have hres : cleanup_inactive_connections m now timeout
      = (dkeys m.active_rooms).foldl (sweepRoom now timeout) (m, 0) := rfl
  have houter := sweep_rooms_aux m now timeout hwf (dkeys m.active_rooms) m 0 hwf.1
    (fun r hr => by
      obtain ⟨v, hv⟩ := mem_dkeys_exists _ _ hr
      simp [hv])
    (fun r _ => rfl)
    ⟨hwf.1, hwf.2.1, hwf.2.2.1⟩
  rw [hres]
  refine ⟨?_, ?_, ?_⟩
  · intro rid cid
    by_cases hrid : rid ∈ dkeys m.active_rooms
    · obtain ⟨mem0, hmem0⟩ := mem_dkeys_exists _ _ hrid
      have hpmem := dlookup_some_mem _ _ _ hmem0
      have hlwf := hwf.2.2.2.2.2 (rid, mem0) hpmem
      obtain ⟨la0, hla0⟩ : ∃ lr, dlookup m.last_activity rid = some lr := by
        rcases hx : dlookup m.last_activity rid with _ | lr
        · rw [hx] at hlwf
          simp at hlwf
        · exact ⟨lr, rfl⟩
      have hgetd : (dlookup m.last_activity rid).getD [] = la0 := by
        rw [hla0]
        rfl
      have hspec := houter.2.2.1 rid hrid mem0 hmem0
      rw [hgetd] at hspec
      have hto : timedOut m now timeout rid cid = tOut la0 now timeout cid := by
        unfold timedOut tOut memberLast
        rw [hla0]
        rfl
      by_cases hfe : filterKey (sdPred la0 now timeout (dkeys mem0)) mem0 = []
      · have htrip3 := hspec.1 hfe
        have h1 : dlookup ((List.foldl (sweepRoom now timeout) (m, 0)
            (dkeys m.active_rooms)).1).active_rooms rid = none := by
          have := congrArg (fun t => t.1) htrip3
          simpa [roomTriple] using this
        have hmr : memberConn ((dkeys m.active_rooms).foldl (sweepRoom now timeout) (m, 0)).1
            rid cid = none := by
          simp [memberConn, h1]
        rw [hmr, hto]
        by_cases hcm : cid ∈ dkeys mem0
        · have htoc : tOut la0 now timeout cid = true := by
            have hcm2 : cid ∈ List.map (fun e => e.1) mem0 := hcm
            obtain ⟨e, hem, hex⟩ := List.mem_map.mp hcm2
            have hff := (filterKey_eq_nil_iff _ _).mp hfe e hem
            rw [hex] at hff
            simpa [sdPred, hcm] using hff
          rw [htoc]
          simp
        · have hcn : dlookup mem0 cid = none := (dlookup_eq_none_iff _ _).mpr hcm
          have hml : memberConn m rid cid = none := by
            simp [memberConn, hmem0, hcn]
          rw [hml]
          cases tOut la0 now timeout cid <;> simp
      · have htrip3 := hspec.2 hfe
        have h1 : dlookup ((List.foldl (sweepRoom now timeout) (m, 0)
            (dkeys m.active_rooms)).1).active_rooms rid
            = some (filterKey (sdPred la0 now timeout (dkeys mem0)) mem0) := by
          have := congrArg (fun t => t.1) htrip3
          simpa [roomTriple] using this
        have hmr : memberConn ((dkeys m.active_rooms).foldl (sweepRoom now timeout) (m, 0)).1
            rid cid
            = (if sdPred la0 now timeout (dkeys mem0) cid then dlookup mem0 cid else none) := by
          simp only [memberConn, h1, Option.some_bind]
          exact dlookup_filterKey _ _ _
        have hml : memberConn m rid cid = dlookup mem0 cid := by
          simp [memberConn, hmem0]
        rw [hmr, hto, hml]
        by_cases hcm : cid ∈ dkeys mem0
        · cases htoc : tOut la0 now timeout cid
          · have hs : sdPred la0 now timeout (dkeys mem0) cid = true := by
              simp [sdPred, hcm, htoc]
            simp [hs]
          · have hs : sdPred la0 now timeout (dkeys mem0) cid = false := by
              simp [sdPred, hcm, htoc]
            simp [hs]
        · have hcn : dlookup mem0 cid = none := (dlookup_eq_none_iff _ _).mpr hcm
          have hs : sdPred la0 now timeout (dkeys mem0) cid = true := by
            simp [sdPred, hcm]
          simp [hs, hcn]
    · have hnone : dlookup m.active_rooms rid = none := (dlookup_eq_none_iff _ _).mpr hrid
      have htr := houter.1 rid hrid
      have h1 : dlookup ((List.foldl (sweepRoom now timeout) (m, 0)
          (dkeys m.active_rooms)).1).active_rooms rid = none := by
        have := congrArg (fun t => t.1) htr
        simp only [roomTriple] at this
        rw [this, hnone]
      have hmr : memberConn ((dkeys m.active_rooms).foldl (sweepRoom now timeout) (m, 0)).1
          rid cid = none := by
        simp [memberConn, h1]
      have hml : memberConn m rid cid = none := by
        simp [memberConn, hnone]
      rw [hmr, hml]
      cases timedOut m now timeout rid cid <;> simp
  · intro rid cid hmm0 hto0
    rcases hr0 : dlookup m.active_rooms rid with _ | mem0
    · exact absurd (by simp [memberConn, hr0]) hmm0
    rcases hc0 : dlookup mem0 cid with _ | v
    · exact absurd (by simp [memberConn, hr0, hc0]) hmm0
    have hrid : rid ∈ dkeys m.active_rooms := lookup_some_mem_dkeys _ _ _ hr0
    have hcm : cid ∈ dkeys mem0 := lookup_some_mem_dkeys _ _ _ hc0
    have hpmem := dlookup_some_mem _ _ _ hr0
    have hlwf := hwf.2.2.2.2.2 (rid, mem0) hpmem
    obtain ⟨la0, hla0⟩ : ∃ lr, dlookup m.last_activity rid = some lr := by
      rcases hx : dlookup m.last_activity rid with _ | lr
      · rw [hx] at hlwf
        simp at hlwf
      · exact ⟨lr, rfl⟩
    have hgetd : (dlookup m.last_activity rid).getD [] = la0 := by
      rw [hla0]
      rfl
    have hnlookup := hwf.2.2.2.2.1 (rid, mem0) hpmem
    obtain ⟨names0, hnames0⟩ : ∃ nr, dlookup m.user_names rid = some nr := by
      rcases hx : dlookup m.user_names rid with _ | nr
      · rw [hx] at hnlookup
        cases hnlookup
      · exact ⟨nr, rfl⟩
    have hngetd : (dlookup m.user_names rid).getD [] = names0 := by
      rw [hnames0]
      rfl
    have hto : timedOut m now timeout rid cid = tOut la0 now timeout cid := by
      unfold timedOut tOut memberLast
      rw [hla0]
      rfl
    have htoc : tOut la0 now timeout cid = false := by
      rw [← hto]
      exact hto0
    have hs : sdPred la0 now timeout (dkeys mem0) cid = true := by
      simp [sdPred, hcm, htoc]
    have hspec := houter.2.2.1 rid hrid mem0 hr0
    rw [hgetd, hngetd] at hspec
    by_cases hfe : filterKey (sdPred la0 now timeout (dkeys mem0)) mem0 = []
    · exfalso
      have hcm2 : cid ∈ List.map (fun e => e.1) mem0 := hcm
      obtain ⟨e, hem, hex⟩ := List.mem_map.mp hcm2
      have hff := (filterKey_eq_nil_iff _ _).mp hfe e hem
      rw [hex, hs] at hff
      cases hff
    · have htrip3 := hspec.2 hfe
      have h2 : dlookup ((List.foldl (sweepRoom now timeout) (m, 0)
          (dkeys m.active_rooms)).1).user_names rid
          = some (filterKey (sdPred la0 now timeout (dkeys mem0)) names0) := by
        have := congrArg (fun t => t.2.1) htrip3
        simpa [roomTriple] using this
      have h3 : dlookup ((List.foldl (sweepRoom now timeout) (m, 0)
          (dkeys m.active_rooms)).1).last_activity rid
          = some (filterKey (sdPred la0 now timeout (dkeys mem0)) la0) := by
        have := congrArg (fun t => t.2.2) htrip3
        simpa [roomTriple] using this
      constructor
      · simp only [memberName, h2, hnames0, Option.some_bind]
        rw [dlookup_filterKey, if_pos hs]
      · simp only [memberLast, h3, hla0, Option.some_bind]
        rw [dlookup_filterKey, if_pos hs]
  · rw [houter.2.2.2]
    have h1 : (dkeys m.active_rooms).map (cntRoom m now timeout)
        = m.active_rooms.map (fun p => cntRoom m now timeout p.1) := by
      simp only [dkeys, List.map_map]
      rfl
    rw [h1]
    unfold countRemoved
    have h2 : m.active_rooms.map (fun p => cntRoom m now timeout p.1)
        = m.active_rooms.map (fun p => p.2.countP (fun e => timedOut m now timeout p.1 e.1)) := by
      apply map_congr_mem
      intro p hp
      have hlp : dlookup m.active_rooms p.1 = some p.2 :=
        dlookup_entry_of_nodup _ p hwf.1 hp
      have hlwf := hwf.2.2.2.2.2 p hp
      obtain ⟨la0p, hla0p⟩ : ∃ lr, dlookup m.last_activity p.1 = some lr := by
        rcases hx : dlookup m.last_activity p.1 with _ | lr
        · rw [hx] at hlwf
          simp at hlwf
        · exact ⟨lr, rfl⟩
      have hgetdp : (dlookup m.last_activity p.1).getD [] = la0p := by
        rw [hla0p]
        rfl
      simp only [cntRoom, hlp, hgetdp]
      rw [countP_dkeys]
      apply countP_congr_mem
      intro e _
      unfold tOut timedOut memberLast
      rw [hla0p]
      rfl
    rw [h2]
    omega

/-- Witness for C5 on the two-member room w2 at now 700 with timeout 600:
the stale member "b" is removed, the fresh member "a" is untouched, and the
returned count matches. -/
theorem c5_witness :
    SweepWf w2 ∧
    memberConn (cleanup_inactive_connections w2 700 600).1 "r" "b" = none ∧
    memberConn (cleanup_inactive_connections w2 700 600).1 "r" "a" = memberConn w2 "r" "a" ∧
    (cleanup_inactive_connections w2 700 600).2 = countRemoved w2 700 600 := by
  refine ⟨by decide, ?_, ?_, (c5_sweep w2 700 600 (by decide)).2.2⟩
  · rw [(c5_sweep w2 700 600 (by decide)).1 "r" "b"]
    decide
  · rw [(c5_sweep w2 700 600 (by decide)).1 "r" "a"]
    decide

end SimpleRandomRooms
